import Mathlib

/-!
Verification development for the finance-agent fact store.

Shallow embedding of the core modules of the repository:
* the versioned-assertion data model and correction engine
  (src/lib/db/schema.ts, src/lib/corrections/apply.ts),
* the conflict detector (src/lib/conflicts, detectConflicts),
* vector search with progressive filter broadening (vectorSearchChunks),
* bounded graph traversal post-processing (graphTraverse),
* the windowed signal screener (src/lib/signals, screenSignals),
* extractor-output normalization (normalizePredicate, normalizeEntityType,
  the assertion-row building loop of extractAndProjectDocument).

Conventions of the embedding:
* machine floats become rationals, timestamps become integers/naturals;
* `crypto.randomUUID()` results are passed in as explicit fresh-id arguments;
* a Postgres table is a list of rows, a transaction is a single pure state
  transformation; the Neo4j projection calls that the TypeScript code issues
  only after the transaction has committed are returned as a list of
  `GraphOp` values to be executed by the caller afterwards;
* external collaborators (the Qdrant vector index, the Neo4j graph store)
  are either parameters of the function under verification or are modelled
  from the spec where a claim needs their semantics.
-/

namespace FinanceAgent

/-! ## Fact-store data model (src/lib/db/schema.ts) -/

inductive AssertionStatus
  | active
  | retracted
  | superseded
deriving DecidableEq, Repr

inductive CorrectionAction
  | retract
  | supersede
  | override
deriving DecidableEq, Repr

/-- One row of the `assertions` table.  `validFrom`/`validTo` are timestamps
(modelled as naturals); `confidence` is a rational standing for the SQL real. -/
structure Assertion where
  id : String
  subjectEntityId : String
  predicate : String
  objectEntityId : Option String
  confidence : ℚ
  sourceDocumentId : String
  sourceChunkId : Option String
  extractionRunId : Option String
  validFrom : Nat
  validTo : Option Nat
  status : AssertionStatus
deriving DecidableEq, Repr

/-- One row of the `corrections` table. -/
structure Correction where
  id : String
  targetAssertionId : String
  action : CorrectionAction
  reason : Option String
  createdBy : Option String
  newAssertionId : Option String
deriving DecidableEq, Repr

/-- The relational fact store restricted to the two tables the correction
engine touches. -/
structure FactStore where
  assertions : List Assertion
  corrections : List Correction
deriving DecidableEq, Repr

/-! ## Correction engine (src/lib/corrections/apply.ts) -/

/-- The field `ApplyCorrectionInput.newAssertion` from apply.ts: a partial draft whose
unset fields are inherited from the target. -/
structure NewAssertionDraft where
  subjectEntityId : Option String := none
  predicate : Option String := none
  objectEntityId : Option String := none
  confidence : Option ℚ := none
  sourceDocumentId : Option String := none
  sourceChunkId : Option String := none
deriving DecidableEq, Repr

structure ApplyCorrectionInput where
  action : CorrectionAction
  targetAssertionId : String
  reason : Option String := none
  createdBy : Option String := none
  newAssertion : Option NewAssertionDraft := none
deriving DecidableEq, Repr

/-- Row shape handed to `upsertAssertionEdgesToNeo4j` (apply.ts lines 158-171).
`sourceChunkId` is a plain string because the code substitutes the empty
string for a missing chunk id. -/
structure AssertionEdgeRow where
  assertionId : String
  predicate : String
  subjectEntityId : String
  objectEntityId : String
  confidence : ℚ
  sourceDocumentId : String
  sourceChunkId : String
  validFrom : Nat
  validTo : Option Nat
  status : AssertionStatus
deriving DecidableEq, Repr

/-- A graph-projection call issued by the correction engine after the
fact-store transaction has committed.  The calls are returned as data, in
order, mirroring that `closeAssertionEdgesInNeo4j` /
`upsertAssertionEdgesToNeo4j` run strictly after `db.transaction` in
apply.ts and are not part of the atomic unit. -/
inductive GraphOp
  | closeEdges (assertionIds : List String) (status : AssertionStatus) (validTo : Nat)
  | upsertEdges (rows : List AssertionEdgeRow)
deriving DecidableEq, Repr

/-- The `select ... where eq(assertions.id, ...) limit 1` target lookup. -/
def findTarget (st : FactStore) (targetId : String) : Option Assertion :=
  st.assertions.find? (fun a => a.id == targetId)

/-- Field resolution of the supersede/override branch (apply.ts lines
101-107).  JavaScript `??` skips both `undefined` and `null`, hence the
`Option.orElse` chains for the nullable fields. -/
def draftOf (input : ApplyCorrectionInput) : NewAssertionDraft :=
  input.newAssertion.getD {}

def newSubjectOf (target : Assertion) (input : ApplyCorrectionInput) : String :=
  (draftOf input).subjectEntityId.getD target.subjectEntityId

def newPredicateOf (target : Assertion) (input : ApplyCorrectionInput) : String :=
  (draftOf input).predicate.getD target.predicate

def newObjectOf (target : Assertion) (input : ApplyCorrectionInput) : Option String :=
  ((draftOf input).objectEntityId).orElse (fun _ => target.objectEntityId)

def newSourceDocumentOf (target : Assertion) (input : ApplyCorrectionInput) : String :=
  (draftOf input).sourceDocumentId.getD target.sourceDocumentId

def newSourceChunkOf (target : Assertion) (input : ApplyCorrectionInput) : Option String :=
  ((draftOf input).sourceChunkId).orElse (fun _ => target.sourceChunkId)

/-- Implements `const confidence = next.confidence ?? 0.9;` — a constant default, not
inherited from the target. -/
def newConfidenceOf (input : ApplyCorrectionInput) : ℚ :=
  (draftOf input).confidence.getD (9 / 10)

/-- The fresh assertion row inserted by supersede/override
(apply.ts lines 128-140). -/
def newAssertionRowOf (target : Assertion) (input : ApplyCorrectionInput)
    (now : Nat) (newAssertionId : String) : Assertion :=
  { id := newAssertionId
    subjectEntityId := newSubjectOf target input
    predicate := newPredicateOf target input
    objectEntityId := newObjectOf target input
    confidence := newConfidenceOf input
    sourceDocumentId := newSourceDocumentOf target input
    sourceChunkId := newSourceChunkOf target input
    extractionRunId := none
    validFrom := now
    validTo := none
    status := .active }

/-- Implements `update assertions set status, validTo where id = targetId`: every row
whose id matches is closed with the given status; all other fields are kept. -/
def closeRows (rows : List Assertion) (targetId : String)
    (status : AssertionStatus) (now : Nat) : List Assertion :=
  rows.map (fun a =>
    if a.id = targetId then { a with status := status, validTo := some now } else a)

def retractErrMsg (targetId : String) : String :=
  "Assertion not found: " ++ targetId

def missingObjectMsg : String :=
  "Cannot supersede/override an assertion without objectEntityId (provide newAssertion.objectEntityId)."

def missingPredicateMsg : String :=
  "Cannot supersede/override an assertion without a predicate (provide newAssertion.predicate)."

/-- The retract branch (apply.ts lines 68-97): one transaction closing the
target and inserting the correction row, followed by one post-commit
graph-edge closure call. -/
def retractBranch (st : FactStore) (target : Assertion)
    (input : ApplyCorrectionInput) (now : Nat) (correctionId : String) :
    FactStore × List GraphOp :=
  ({ assertions := closeRows st.assertions target.id .retracted now
     corrections := st.corrections ++
       [{ id := correctionId
          targetAssertionId := target.id
          action := .retract
          reason := input.reason
          createdBy := input.createdBy
          newAssertionId := none }] },
   [GraphOp.closeEdges [target.id] .retracted now])

/-- The supersede/override branch (apply.ts lines 100-171).  The
`objectEntityId`/`predicate` guards replicate the JavaScript truthiness
checks, so the empty string is rejected like a missing value. -/
def supersedeBranch (st : FactStore) (target : Assertion)
    (input : ApplyCorrectionInput) (now : Nat)
    (correctionId newAssertionId : String) :
    Except String (FactStore × List GraphOp) :=
  match newObjectOf target input with
  | none => .error missingObjectMsg
  | some obj =>
    if obj = "" then .error missingObjectMsg
    else if newPredicateOf target input = "" then .error missingPredicateMsg
    else
      .ok
        ({ assertions :=
             closeRows st.assertions target.id .superseded now ++
               [newAssertionRowOf target input now newAssertionId]
           corrections := st.corrections ++
             [{ id := correctionId
                targetAssertionId := target.id
                action := input.action
                reason := input.reason
                createdBy := input.createdBy
                newAssertionId := some newAssertionId }] },
         [GraphOp.closeEdges [target.id] .superseded now,
          GraphOp.upsertEdges
            [{ assertionId := newAssertionId
               predicate := newPredicateOf target input
               subjectEntityId := newSubjectOf target input
               objectEntityId := obj
               confidence := newConfidenceOf input
               sourceDocumentId := newSourceDocumentOf target input
               sourceChunkId := (newSourceChunkOf target input).getD ""
               validFrom := now
               validTo := none
               status := .active }]])

/-- The function `applyCorrection` from src/lib/corrections/apply.ts.  `now` is the
timestamp taken once at the start; `correctionId`/`newAssertionId` stand for
the two `crypto.randomUUID()` calls. -/
def applyCorrection (st : FactStore) (input : ApplyCorrectionInput)
    (now : Nat) (correctionId newAssertionId : String) :
    Except String (FactStore × List GraphOp) :=
  match findTarget st input.targetAssertionId with
  | none => .error (retractErrMsg input.targetAssertionId)
  | some target =>
    if input.action = .retract then .ok (retractBranch st target input now correctionId)
    else supersedeBranch st target input now correctionId newAssertionId

/-- Running a correction against the store: a failed call leaves the store
untouched and issues no graph calls (the error is thrown before any write). -/
def applyCorrectionRun (st : FactStore) (input : ApplyCorrectionInput)
    (now : Nat) (correctionId newAssertionId : String) :
    FactStore × List GraphOp :=
  match applyCorrection st input now correctionId newAssertionId with
  | .error _ => (st, [])
  | .ok r => r

/-- One call of a correction sequence (inputs plus the fresh ids and the
clock value for that call). -/
structure CorrectionCall where
  input : ApplyCorrectionInput
  now : Nat
  correctionId : String
  newId : String
deriving Repr

def runCorrections (st : FactStore) : List CorrectionCall → FactStore
  | [] => st
  | c :: cs =>
    runCorrections (applyCorrectionRun st c.input c.now c.correctionId c.newId).1 cs

/-- Every retracted or superseded assertion is referenced as target by at
least one correction row. -/
def terminalHasCorrection (st : FactStore) : Prop :=
  ∀ a ∈ st.assertions, (a.status = .retracted ∨ a.status = .superseded) →
    ∃ c ∈ st.corrections, c.targetAssertionId = a.id

instance (st : FactStore) : Decidable (terminalHasCorrection st) := by
  unfold terminalHasCorrection
  infer_instance

/-! ## List utilities shared by the embeddings

`dedupFirst` keeps the first occurrence of each element, which is the
behaviour of the JavaScript seen-set / `Map` insertion patterns used in the
repository (Mathlib's `List.dedup` keeps last occurrences instead).
`insertionSortBy` is a straightforward stable sort standing in for the SQL
`ORDER BY` and the score ordering of the vector index. -/

def dedupFirst [DecidableEq α] : List α → List α
  | [] => []
  | x :: xs => x :: (dedupFirst xs).filter (fun y => y ≠ x)

/-- First-occurrence deduplication keyed by a projection, modelling a
JavaScript `Map` whose `set` is guarded by `has`. -/
def dedupByKey (key : α → String) : List α → List α
  | [] => []
  | x :: xs => x :: (dedupByKey key xs).filter (fun y => key y ≠ key x)

/-- List-based model of JavaScript `s.trim()` (whitespace stripped from both
ends). -/
def jsTrim (s : String) : String :=
  String.mk
    (((s.data.dropWhile Char.isWhitespace).reverse.dropWhile Char.isWhitespace).reverse)

/-- List-based model of `s.toLowerCase()`. -/
def jsToLower (s : String) : String :=
  String.mk (s.data.map Char.toLower)

/-- List-based model of `s.toUpperCase()`. -/
def jsToUpper (s : String) : String :=
  String.mk (s.data.map Char.toUpper)

/-- List-based model of `s.slice(0, n)`. -/
def jsTake (s : String) (n : Nat) : String :=
  String.mk (s.data.take n)

def insertSortedBy (le : α → α → Bool) (x : α) : List α → List α
  | [] => [x]
  | y :: ys => if le x y then x :: y :: ys else y :: insertSortedBy le x ys

def insertionSortBy (le : α → α → Bool) : List α → List α
  | [] => []
  | x :: xs => insertSortedBy le x (insertionSortBy le xs)

/-! ## Conflict detector (detectConflicts, src/lib/embeddings/openai.ts part) -/

def SINGLE_VALUED_PREDICATES : List String :=
  ["CEO", "HEADQUARTERED_IN", "FOUNDED_IN"]

structure ConflictGroup where
  subjectEntityId : String
  predicate : String
  assertionIds : List String
  objectEntityIds : List (Option String)
deriving DecidableEq, Repr

/-- The grouping key string built by the code:
`` `${r.subjectEntityId}:${r.predicate}` ``. -/
def conflictKey (a : Assertion) : String :=
  a.subjectEntityId ++ ":" ++ a.predicate

/-- Implements `max(1, min(opts.limit ?? 2000, 5000))`. -/
def conflictLimit (limitOpt : Option Nat) : Nat :=
  max 1 (min (limitOpt.getD 2000) 5000)

/-- Implements `opts.predicates && opts.predicates.length > 0 ? opts.predicates
: [...SINGLE_VALUED_PREDICATES]`. -/
def conflictPredicates (predicatesOpt : Option (List String)) : List String :=
  match predicatesOpt with
  | none => SINGLE_VALUED_PREDICATES
  | some ps => if ps = [] then SINGLE_VALUED_PREDICATES else ps

/-- The row scan: active assertions with `validTo` null whose predicate is in
the configured set, capped by the select limit. -/
def conflictRows (st : FactStore) (predicates : List String) (limit : Nat) :
    List Assertion :=
  (st.assertions.filter (fun a =>
    a.status == AssertionStatus.active && a.validTo == none &&
      predicates.contains a.predicate)).take limit

/-- The `Map`-based grouping loop of detectConflicts: one group per distinct
key in first-occurrence order, accumulating assertion ids and object values
in row order. -/
def groupConflictRows : List Assertion → List ConflictGroup
  | [] => []
  | r :: rs =>
    { subjectEntityId := r.subjectEntityId
      predicate := r.predicate
      assertionIds := (r :: rs.filter (fun x => conflictKey x = conflictKey r)).map (·.id)
      objectEntityIds :=
        (r :: rs.filter (fun x => conflictKey x = conflictKey r)).map (·.objectEntityId) } ::
      groupConflictRows (rs.filter (fun x => conflictKey x ≠ conflictKey r))
termination_by l => l.length
decreasing_by
  simp only [List.length_cons]
  exact Nat.lt_succ_of_le (List.length_filter_le _ _)

/-- Implements `new Set(g.objectEntityIds.map(v => v ?? "NULL")).size`. -/
def distinctObjectCount (g : ConflictGroup) : Nat :=
  ((g.objectEntityIds.map (fun v => v.getD "NULL")).dedup).length

/-- The function `detectConflicts` from the repository: scan, group, and keep the groups
with more than one distinct current value. -/
def detectConflicts (st : FactStore) (predicatesOpt : Option (List String))
    (limitOpt : Option Nat) : List ConflictGroup :=
  let predicates := conflictPredicates predicatesOpt
  if predicates = [] then []
  else
    (groupConflictRows (conflictRows st predicates (conflictLimit limitOpt))).filter
      (fun g => 1 < distinctObjectCount g)

/-- Rows of a given subject/predicate pair. -/
def matchSP (S P : String) (a : Assertion) : Bool :=
  a.subjectEntityId == S && a.predicate == P

/-- Groups of a given subject/predicate pair. -/
def groupSP (S P : String) (g : ConflictGroup) : Bool :=
  g.subjectEntityId == S && g.predicate == P

/-- The scanned rows contributing to the (S, P) group. -/
def conflictRowsFor (st : FactStore) (predicatesOpt : Option (List String))
    (limitOpt : Option Nat) (S P : String) : List Assertion :=
  (conflictRows st (conflictPredicates predicatesOpt) (conflictLimit limitOpt)).filter
    (matchSP S P)

/-- The distinct object values of a row list, a missing objectEntityId
standing for the NULL sentinel. -/
def conflictValues (rows : List Assertion) : List String :=
  (rows.map (fun a => a.objectEntityId.getD "NULL")).dedup

/-! ## Vector search with progressive broadening (vectorSearchChunks) -/

/-- One Qdrant `must` condition: payload field `key` must match `value`. -/
structure FilterCond where
  key : String
  value : String
deriving DecidableEq, Repr

structure VectorSearchFilters where
  cik : Option String := none
  docType : Option String := none
  accessionNo : Option String := none
deriving DecidableEq, Repr

/-- JavaScript `s.replace(/^0+/, "")`. -/
def stripLeadingZeros (s : String) : String :=
  String.mk (s.data.dropWhile (fun c => c = '0'))

/-- The `cikMust` condition list: trimmed, truthiness-checked, then
normalized by stripping leading zeros. -/
def cikMust (f : VectorSearchFilters) : List FilterCond :=
  match f.cik with
  | none => []
  | some c =>
    if jsTrim c = "" then []
    else [{ key := "cik", value := stripLeadingZeros (jsTrim c) }]

def docTypeMust (f : VectorSearchFilters) : List FilterCond :=
  match f.docType with
  | none => []
  | some d => if d = "" then [] else [{ key := "doc_type", value := d }]

def accessionMust (f : VectorSearchFilters) : List FilterCond :=
  match f.accessionNo with
  | none => []
  | some a =>
    if jsTrim a = "" then []
    else [{ key := "accession_no", value := jsTrim a }]

/-- The broadening chain pushed by vectorSearchChunks, most to least
specific: full filters, drop accession, drop docType as well, global. -/
def broadeningAttempts (f : VectorSearchFilters) : List (List FilterCond) :=
  [cikMust f ++ docTypeMust f ++ accessionMust f,
   cikMust f ++ docTypeMust f,
   cikMust f,
   []]

/-- A search hit as returned to the caller. -/
structure VectorSearchHit where
  score : ℚ
  chunkId : String
  documentId : String
deriving DecidableEq, Repr

/-- A point of the external vector index: similarity score at the fixed
query, and its payload as a key/value association list. -/
structure VectorPoint where
  id : String
  score : ℚ
  payload : List (String × String)
deriving DecidableEq, Repr

/-- Hit construction of `searchWith` (part_009 lines 266-274): payload
`chunk_id` falling back to the point id, payload `document_id` falling back
to the empty string. -/
def toHit (p : VectorPoint) : VectorSearchHit :=
  { score := p.score
    chunkId := (p.payload.lookup "chunk_id").getD p.id
    documentId := (p.payload.lookup "document_id").getD "" }

/-- Implements `searchWith(must)`, parameterized by the external index call `qsearch`
(Qdrant at the fixed embedded query vector, collection and topK). -/
def searchWith (qsearch : List FilterCond → List VectorPoint)
    (must : List FilterCond) : List VectorSearchHit :=
  (qsearch must).map toHit

/-- The retry loop of vectorSearchChunks: run each attempt in order and stop
at the first non-empty hit list; the hits of the last attempt (possibly
empty) are returned when every attempt came back empty. -/
def tryAttempts (search : List FilterCond → List VectorSearchHit) :
    List (List FilterCond) → List VectorSearchHit
  | [] => []
  | [f] => search f
  | f :: g :: rest =>
    if (search f).isEmpty then tryAttempts search (g :: rest) else search f

/-- The function `vectorSearchChunks` (part_009 lines 221-303), with the embedding and
Qdrant calls abstracted into `qsearch`.  The attempt list is deduplicated by
structural equality, matching the `JSON.stringify` seen-set of the code. -/
def vectorSearchChunks (qsearch : List FilterCond → List VectorPoint)
    (query : String) (filters : VectorSearchFilters) : List VectorSearchHit :=
  if jsTrim query = "" then []
  else tryAttempts (searchWith qsearch) (dedupFirst (broadeningAttempts filters))

/-- Modelled from the spec: the external vector index (`search(vector,
filter, topK)` of section 6, realized by Qdrant, which is not part of this
repository).  A search returns the `topK` highest-scoring points whose
payload matches every `must` condition; a condition matches when the payload
field equals the requested value. -/
def condHolds (payload : List (String × String)) (c : FilterCond) : Bool :=
  payload.lookup c.key == some c.value

/-- Modelled from the spec: top-K filtered vector search over fixed index
contents `pts` at a fixed query (scores are per-point). -/
def qdrantSearch (pts : List VectorPoint) (topK : Nat)
    (must : List FilterCond) : List VectorPoint :=
  (insertionSortBy (fun a b => decide (b.score ≤ a.score))
    (pts.filter (fun p => must.all (condHolds p.payload)))).take topK

/-! ## Graph traversal post-processing (graphTraverse, part_009 lines 26-127) -/

def ALLOWED_EDGE_TYPES : List String :=
  ["BENEFITS_FROM", "EXPOSED_TO", "SUPPLIES_TO", "IMPACTS"]

/-- The function `sanitizeEdgeTypes`: unknown types are filtered out; an absent, empty or
entirely invalid list falls back to the full allow-list. -/
def sanitizeEdgeTypes (types : Option (List String)) : List String :=
  match types with
  | none => ALLOWED_EDGE_TYPES
  | some ts =>
    if ts = [] then ALLOWED_EDGE_TYPES
    else
      let out := ts.filter (fun t => ALLOWED_EDGE_TYPES.contains t)
      if out = [] then ALLOWED_EDGE_TYPES else out

/-- Implements `clampInt(n, min, max)` on integral finite inputs. -/
def clampInt (n lo hi : Int) : Int :=
  max lo (min hi n)

/-- A Neo4j node as far as `nodeId` reads it: the `entityId`, `documentId`
and `chunkId` payload properties, plus labels. -/
structure GraphNodeRec where
  entityId : Option String := none
  documentId : Option String := none
  chunkId : Option String := none
  labels : List String := []
deriving DecidableEq, Repr

/-- Implements `props["entityId"] ?? props["documentId"] ?? props["chunkId"]`, with the
empty string standing for a missing or non-stringifiable id. -/
def nodeId (n : GraphNodeRec) : String :=
  (((n.entityId).orElse (fun _ => n.documentId)).orElse (fun _ => n.chunkId)).getD ""

structure GraphRel where
  relType : String
  assertionId : Option String := none
deriving DecidableEq, Repr

/-- One segment of a returned path. -/
structure PathSeg where
  segStart : GraphNodeRec
  segEnd : GraphNodeRec
  rel : GraphRel
deriving DecidableEq, Repr

structure GraphEdgeOut where
  edgeType : String
  fromId : String
  toId : String
  assertionId : Option String
deriving DecidableEq, Repr

structure GraphNodeOut where
  id : String
  labels : List String
deriving DecidableEq, Repr

structure GraphResult where
  nodes : List GraphNodeOut
  edges : List GraphEdgeOut
deriving DecidableEq, Repr

/-- The Cypher query parameters graphTraverse sends to Neo4j: only the first
seed entity id, the sanitized relationship-type union, the clamped depth and
the clamped limit. -/
structure TraverseQuery where
  seed : String
  relTypes : List String
  depth : Int
  limit : Int
deriving DecidableEq, Repr

def traverseQueryOf (edgeTypes : Option (List String))
    (depth limit : Option Int) (seed : String) : TraverseQuery :=
  { seed := seed
    relTypes := sanitizeEdgeTypes edgeTypes
    depth := clampInt (depth.getD 2) 1 3
    limit := clampInt (limit.getD 25) 1 200 }

/-- Dedup key of the edge map:
`` `${rel.type}:${assertionIdStr}:${startId}->${endId}` ``. -/
def edgeKey (e : GraphEdgeOut) : String :=
  e.edgeType ++ ":" ++ (e.assertionId.getD "") ++ ":" ++ e.fromId ++ "->" ++ e.toId

def segEdge (s : PathSeg) : GraphEdgeOut :=
  { edgeType := s.rel.relType
    fromId := nodeId s.segStart
    toId := nodeId s.segEnd
    assertionId := s.rel.assertionId }

/-- Segments of all returned paths in record order, minus the ones whose
start or end node has no usable id (the `continue` in the loop). -/
def validSegs (paths : List (List PathSeg)) : List PathSeg :=
  paths.flatten.filter (fun s => nodeId s.segStart ≠ "" && nodeId s.segEnd ≠ "")

/-- Node accumulation order of the loop: start node then end node of each
kept segment, first occurrence per id kept. -/
def traverseNodes (paths : List (List PathSeg)) : List GraphNodeOut :=
  dedupByKey (·.id)
    ((validSegs paths).flatMap (fun s =>
      [{ id := nodeId s.segStart, labels := s.segStart.labels },
       { id := nodeId s.segEnd, labels := s.segEnd.labels }]))

def traverseEdges (paths : List (List PathSeg)) : List GraphEdgeOut :=
  dedupByKey edgeKey ((validSegs paths).map segEdge)

/-- The function `graphTraverse`, with the Neo4j round trip abstracted into `run` (the
graph store executing the generated Cypher query). -/
def graphTraverse (run : TraverseQuery → List (List PathSeg))
    (seedEntityIds : List String) (edgeTypes : Option (List String))
    (depth limit : Option Int) : GraphResult :=
  match (seedEntityIds.head?).map jsTrim with
  | none => { nodes := [], edges := [] }
  | some seed =>
    if seed = "" then { nodes := [], edges := [] }
    else
      let q := traverseQueryOf edgeTypes depth limit seed
      let paths := run q
      { nodes := traverseNodes paths, edges := traverseEdges paths }

/-! ## Signal screener (screenSignals, src/lib/signals part_125-318)

The SQL of screenSignals is embedded over the columns it reads from the
`signals` table: `cik`, `signal_key`, `as_of_date` (a day number) and
`value`.  `DISTINCT ON (cik) ... ORDER BY cik, as_of_date DESC/ASC` picks a
row of extremal date per cik; ties on the date are broken arbitrarily by
Postgres, here by first table position. -/

structure SignalRow where
  cik : String
  signalKey : String
  asOfDate : Int
  value : ℚ
deriving DecidableEq, Repr

structure ScreenSignalsInput where
  ciks : List String := []
  epsKey : Option String := none
  epsLookbackDays : Option Int := none
  epsMinDelta : Option ℚ := none
  flowKey : Option String := none
  flowLookbackDays : Option Int := none
  flowMinSum : Option ℚ := none
  limit : Option Int := none
deriving Repr

structure ScreenSignalsRow where
  cik : String
  earliestDate : Int
  earliestValue : ℚ
  latestDate : Int
  latestValue : ℚ
  delta : ℚ
  startDate : Int
  endDate : Int
  flowSum : ℚ
deriving DecidableEq, Repr

/-- Implements `cik.trim().replace(/^0+/, "")` (shared by the signals modules). -/
def normalizeCik (cik : String) : String :=
  stripLeadingZeros (jsTrim cik)

/-- Implements `(input.key?.trim() || default).slice(0, 128)`. -/
def keyOrDefault (k : Option String) (dflt : String) : String :=
  jsTake
    (match k with
     | some s => if jsTrim s = "" then dflt else jsTrim s
     | none => dflt) 128

def epsKeyOf (input : ScreenSignalsInput) : String :=
  keyOrDefault input.epsKey "eps_ntm_consensus"

def flowKeyOf (input : ScreenSignalsInput) : String :=
  keyOrDefault input.flowKey "fund_flow_4w_usd"

def epsLookbackOf (input : ScreenSignalsInput) : Int :=
  max 7 (min (input.epsLookbackDays.getD 90) 365)

def flowLookbackOf (input : ScreenSignalsInput) : Int :=
  max 7 (min (input.flowLookbackDays.getD 28) 365)

def epsMinDeltaOf (input : ScreenSignalsInput) : ℚ :=
  input.epsMinDelta.getD 0

def flowMinSumOf (input : ScreenSignalsInput) : ℚ :=
  input.flowMinSum.getD 0

def screenLimitOf (input : ScreenSignalsInput) : Int :=
  max 1 (min (input.limit.getD 50) 200)

def screenCiksOf (input : ScreenSignalsInput) : List String :=
  (input.ciks.map normalizeCik).filter (fun c => c ≠ "")

/-- The `universe` CTE: distinct ciks present in the signals table,
restricted to the requested ciks when any were given. -/
def screenUniverse (table : List SignalRow) (input : ScreenSignalsInput) :
    List String :=
  dedupFirst
    ((table.filter (fun s =>
      screenCiksOf input = [] || (screenCiksOf input).contains s.cik)).map (·.cik))

/-- The `eps_window` CTE restricted to one cik. -/
def epsWindowOf (table : List SignalRow) (today : Int)
    (input : ScreenSignalsInput) (c : String) : List SignalRow :=
  table.filter (fun s =>
    s.cik == c && s.signalKey == epsKeyOf input &&
      decide (today - epsLookbackOf input ≤ s.asOfDate))

/-- The `flow_window` CTE restricted to one cik. -/
def flowWindowOf (table : List SignalRow) (today : Int)
    (input : ScreenSignalsInput) (c : String) : List SignalRow :=
  table.filter (fun s =>
    s.cik == c && s.signalKey == flowKeyOf input &&
      decide (today - flowLookbackOf input ≤ s.asOfDate))

/-- Implements `DISTINCT ON (cik) ... ORDER BY as_of_date DESC`: the first row carrying
the maximal date. -/
def maxByDate? : List SignalRow → Option SignalRow
  | [] => none
  | r :: rs =>
    match maxByDate? rs with
    | none => some r
    | some m => if m.asOfDate ≤ r.asOfDate then some r else some m

/-- Implements `DISTINCT ON (cik) ... ORDER BY as_of_date ASC`: the first row carrying
the minimal date. -/
def minByDate? : List SignalRow → Option SignalRow
  | [] => none
  | r :: rs =>
    match minByDate? rs with
    | none => some r
    | some m => if r.asOfDate ≤ m.asOfDate then some r else some m

def flowSumOf (table : List SignalRow) (today : Int)
    (input : ScreenSignalsInput) (c : String) : ℚ :=
  ((flowWindowOf table today input c).map (·.value)).sum

/-- The joined per-cik row of the query, `none` when the cik drops out of an
inner join (no eps row or no flow row in the window) or fails the `WHERE
eps_delta > ... AND flow_sum > ...` filter. -/
def screenRowOf (table : List SignalRow) (today : Int)
    (input : ScreenSignalsInput) (c : String) : Option ScreenSignalsRow :=
  match maxByDate? (epsWindowOf table today input c),
      minByDate? (epsWindowOf table today input c) with
  | some l, some e =>
    let fw := flowWindowOf table today input c
    if fw.isEmpty then none
    else
      let fsum := (fw.map (·.value)).sum
      if epsMinDeltaOf input < l.value - e.value ∧ flowMinSumOf input < fsum then
        some
          { cik := c
            earliestDate := e.asOfDate
            earliestValue := e.value
            latestDate := l.asOfDate
            latestValue := l.value
            delta := l.value - e.value
            startDate := ((fw.map (·.asOfDate)).min?).getD 0
            endDate := ((fw.map (·.asOfDate)).max?).getD 0
            flowSum := fsum }
      else none
  | _, _ => none

def screenRows (table : List SignalRow) (today : Int)
    (input : ScreenSignalsInput) : List ScreenSignalsRow :=
  (screenUniverse table input).filterMap (screenRowOf table today input)

def flowDescLe (a b : ScreenSignalsRow) : Bool :=
  decide (b.flowSum ≤ a.flowSum)

/-- The function `screenSignals`: qualifying rows ordered by flow sum descending, capped
at the clamped limit. -/
def screenSignals (table : List SignalRow) (today : Int)
    (input : ScreenSignalsInput) : List ScreenSignalsRow :=
  (insertionSortBy flowDescLe (screenRows table today input)).take
    (screenLimitOf input).toNat

/-! ## Extractor-output normalization
(src/lib/providers/massive/client.ts part: normalizePredicate,
normalizeEntityType, and the assertion-row loop of
extractAndProjectDocument) -/

/-- JavaScript `replace(/[\s-]+/g, "_")`: every maximal run of whitespace or
hyphens becomes a single underscore.  The flag records whether the previous
character belonged to such a run. -/
def collapseSepsAux : Bool → List Char → List Char
  | _, [] => []
  | prev, c :: cs =>
    if c.isWhitespace || c = '-' then
      (if prev then [] else ['_']) ++ collapseSepsAux true cs
    else
      c :: collapseSepsAux false cs

def ENTITY_TYPES : List String :=
  ["company", "instrument", "sector", "country", "event", "concept", "indicator"]

/-- Implements `raw.trim().toLowerCase().replace(/[\s-]+/g, "_")`. -/
def entityTypeToken (raw : String) : String :=
  String.mk (collapseSepsAux false (jsToLower (jsTrim raw)).data)

/-- The function `normalizeEntityType`: recognized tokens and synonyms map into the fixed
entity-type enum, everything else falls back to "concept". -/
def normalizeEntityType (raw : String) : String :=
  let t := entityTypeToken raw
  if ENTITY_TYPES.contains t then t
  else if ["org", "organization", "corp", "corporation", "issuer", "entity"].contains t then
    "company"
  else if ["stock", "security", "bond", "equity", "etf", "index"].contains t then
    "instrument"
  else if ["industry", "vertical"].contains t then "sector"
  else if ["nation", "region", "geography"].contains t then "country"
  else if ["metric", "kpi", "financial_metric"].contains t then "indicator"
  else "concept"

/-- Every entity-type token the synonym table recognizes (direct enum values
plus all synonym groups); any other token takes the fallback branch. -/
def recognizedTypeTokens : List String :=
  ENTITY_TYPES ++
    ["org", "organization", "corp", "corporation", "issuer", "entity"] ++
    ["stock", "security", "bond", "equity", "etf", "index"] ++
    ["industry", "vertical"] ++
    ["nation", "region", "geography"] ++
    ["metric", "kpi", "financial_metric"]

/-- Implements `raw.trim().toUpperCase().replace(/[\s-]+/g, "_")`. -/
def predicateToken (raw : String) : String :=
  String.mk (collapseSepsAux false (jsToUpper (jsTrim raw)).data)

/-- The function `normalizePredicate`: the fixed vocabulary plus the listed synonym
groups; anything else is `none` (the relation is dropped, not stored). -/
def normalizePredicate (raw : String) : Option String :=
  let p := predicateToken raw
  if p = "" then none
  else if ALLOWED_EDGE_TYPES.contains p then some p
  else if ["AFFECTS", "AFFECTS_NEGATIVELY", "AFFECTS_POSITIVELY", "IMPACT",
      "IMPACTS_ON", "AFFECTS_ON"].contains p then some "IMPACTS"
  else if ["BENEFITS", "PROFITS_FROM", "GAINS_FROM", "BENEFITS"].contains p then
    some "BENEFITS_FROM"
  else if ["EXPOSED", "RISK_FROM", "RISK_OF", "DEPENDENT_ON", "DEPENDENCE_ON",
      "SUBJECT_TO"].contains p then some "EXPOSED_TO"
  else if ["SUPPLIES", "SUPPLIER_TO", "PROVIDES_TO", "SELLS_TO", "SERVES"].contains p then
    some "SUPPLIES_TO"
  else none

/-- One relation proposed by the extractor (LLM) after schema validation. -/
structure ExtractedRelation where
  subject : String
  predicate : String
  object : String
  confidence : ℚ
deriving DecidableEq, Repr

/-- Implements `entityKey(name)` = `name.trim().toLowerCase()`. -/
def entityKey (name : String) : String :=
  jsToLower (jsTrim name)

/-- The draft of an `assertions` insert produced by the extraction loop. -/
structure ExtractedAssertionRow where
  id : String
  subjectEntityId : String
  predicate : String
  objectEntityId : String
  confidence : ℚ
  sourceDocumentId : String
  sourceChunkId : String
deriving DecidableEq, Repr

/-- The per-relation body of the assertion loop (client.ts part lines
433-454).  `resolve` is the `nameToEntity` lookup by normalized entity key
(returning the entity id); relations whose subject/object are missing or
resolve to the same entity, or whose predicate fails normalization, yield no
row. -/
def relationRow (resolve : String → Option String) (docId chunkId : String)
    (freshId : String) (rel : ExtractedRelation) : Option ExtractedAssertionRow :=
  match resolve (entityKey rel.subject), resolve (entityKey rel.object) with
  | some s, some o =>
    if s = o then none
    else
      match normalizePredicate rel.predicate with
      | none => none
      | some p =>
        some
          { id := freshId
            subjectEntityId := s
            predicate := p
            objectEntityId := o
            confidence := rel.confidence
            sourceDocumentId := docId
            sourceChunkId := chunkId }
  | _, _ => none

/-- The full loop over the chunk's relations.  `freshIds` enumerates the
`crypto.randomUUID()` results (the numbering is immaterial: UUIDs carry no
sequential meaning). -/
def buildAssertionRows (resolve : String → Option String) (docId chunkId : String)
    (freshIds : Nat → String) : List ExtractedRelation → Nat → List ExtractedAssertionRow
  | [], _ => []
  | rel :: rest, i =>
    match relationRow resolve docId chunkId (freshIds i) rel with
    | none => buildAssertionRows resolve docId chunkId freshIds rest (i + 1)
    | some row => row :: buildAssertionRows resolve docId chunkId freshIds rest (i + 1)

/-! ## Concrete fixtures used to exercise the theorems -/

def exTarget : Assertion :=
  { id := "a1"
    subjectEntityId := "s1"
    predicate := "BENEFITS_FROM"
    objectEntityId := some "o1"
    confidence := 1 / 2
    sourceDocumentId := "d1"
    sourceChunkId := some "ch1"
    extractionRunId := none
    validFrom := 0
    validTo := none
    status := .active }

def exStore : FactStore :=
  { assertions := [exTarget], corrections := [] }

def exEmptyStore : FactStore :=
  { assertions := [], corrections := [] }

def exRetractInput : ApplyCorrectionInput :=
  { action := .retract, targetAssertionId := "a1", reason := some "bad fact" }

def exSupersedeInput : ApplyCorrectionInput :=
  { action := .supersede
    targetAssertionId := "a1"
    newAssertion := some { objectEntityId := some "o2" } }

/-- The store after retracting `a1` once at time 5. -/
def exStoreR1 : FactStore :=
  (applyCorrectionRun exStore exRetractInput 5 "c1" "n1").1

/-- The store after retracting `a1` a second time at time 6. -/
def exStoreR2 : FactStore :=
  (applyCorrectionRun exStoreR1 exRetractInput 6 "c2" "n2").1

def exConflictAssertion (i : String) (obj : String) : Assertion :=
  { id := i
    subjectEntityId := "S"
    predicate := "CEO"
    objectEntityId := some obj
    confidence := 1
    sourceDocumentId := "d1"
    sourceChunkId := none
    extractionRunId := none
    validFrom := 0
    validTo := none
    status := .active }

/-- Subject S with two distinct active CEO values and a third assertion
repeating the first value. -/
def exConflictStore : FactStore :=
  { assertions :=
      [exConflictAssertion "A1" "O1",
       exConflictAssertion "A2" "O2",
       exConflictAssertion "A3" "O1"]
    corrections := [] }

def exVecFilters : VectorSearchFilters :=
  { cik := some "0001", docType := some "10-k", accessionNo := some "ACC-9" }

/-- An index oracle that only returns a hit for the cik-only filter set:
forces the broadening loop through the first two attempts. -/
def exQsearch (must : List FilterCond) : List VectorPoint :=
  if must = [{ key := "cik", value := "1" }] then
    [{ id := "p1", score := 3 / 4, payload := [("chunk_id", "ck1"), ("document_id", "dc1")] }]
  else []

/-- Two-point index for the broadening-monotonicity counterexample: the
point matching the cik filter scores below a point that matches nothing. -/
def exPointLow : VectorPoint :=
  { id := "p1", score := 1, payload := [("cik", "1")] }

def exPointHigh : VectorPoint :=
  { id := "p2", score := 2, payload := [] }

def exIndex : List VectorPoint := [exPointLow, exPointHigh]

def exCikCond : FilterCond := { key := "cik", value := "1" }

def exNodeA : GraphNodeRec := { entityId := some "E1", labels := ["Entity"] }

def exNodeB : GraphNodeRec := { entityId := some "E2", labels := ["Entity"] }

def exNodeC : GraphNodeRec := { entityId := some "E3", labels := ["Entity"] }

def exSeg1 : PathSeg :=
  { segStart := exNodeA, segEnd := exNodeB
    rel := { relType := "IMPACTS", assertionId := some "as1" } }

def exSeg2 : PathSeg :=
  { segStart := exNodeB, segEnd := exNodeC
    rel := { relType := "EXPOSED_TO", assertionId := some "as2" } }

/-- The graph store returning two paths that share a duplicate segment. -/
def exRun (_ : TraverseQuery) : List (List PathSeg) :=
  [[exSeg1], [exSeg1, exSeg2]]

def exSignalTable : List SignalRow :=
  [{ cik := "1", signalKey := "eps_ntm_consensus", asOfDate := 1, value := 1 },
   { cik := "1", signalKey := "eps_ntm_consensus", asOfDate := 5, value := 3 / 2 },
   { cik := "1", signalKey := "fund_flow_4w_usd", asOfDate := 4, value := 200 }]

def exScreenInput : ScreenSignalsInput := {}

def exResolve (k : String) : Option String :=
  if k = "apple" then some "e-apple"
  else if k = "ai demand" then some "e-ai" else none

def exRelations : List ExtractedRelation :=
  [{ subject := "Apple", predicate := "benefits from", object := "AI demand", confidence := 4 / 5 },
   { subject := "Apple", predicate := "IS_COOL", object := "AI demand", confidence := 4 / 5 },
   { subject := "Apple", predicate := "IMPACTS", object := "Apple", confidence := 4 / 5 }]

/-! ## Correction-engine lemmas -/

theorem findTarget_id (st : FactStore) (tid : String) (t : Assertion)
    (h : findTarget st tid = some t) : t.id = tid := by
  have hp := List.find?_some h
  simpa using hp

theorem findTarget_mem (st : FactStore) (tid : String) (t : Assertion)
    (h : findTarget st tid = some t) : t ∈ st.assertions :=
  List.mem_of_find?_eq_some h

theorem mem_closeRows_self (rows : List Assertion) (tid : String)
    (stat : AssertionStatus) (now : Nat) (a : Assertion)
    (ha : a ∈ rows) (hid : a.id = tid) :
    ({ a with status := stat, validTo := some now } : Assertion) ∈
      closeRows rows tid stat now := by
  unfold closeRows
  refine List.mem_map.mpr ⟨a, ha, ?_⟩
  simp [hid]

theorem mem_closeRows_other (rows : List Assertion) (tid : String)
    (stat : AssertionStatus) (now : Nat) (a : Assertion)
    (ha : a ∈ rows) (hid : a.id ≠ tid) :
    a ∈ closeRows rows tid stat now := by
  unfold closeRows
  refine List.mem_map.mpr ⟨a, ha, ?_⟩
  simp [hid]

theorem closeRows_src (rows : List Assertion) (tid : String)
    (stat : AssertionStatus) (now : Nat) (b : Assertion)
    (hb : b ∈ closeRows rows tid stat now) :
    ∃ a ∈ rows,
      b = if a.id = tid then { a with status := stat, validTo := some now } else a := by
  unfold closeRows at hb
  obtain ⟨a, ha, hba⟩ := List.mem_map.mp hb
  exact ⟨a, ha, hba.symm⟩

/-- Inversion of a successful retract call: the committed store and the
post-commit graph calls are exactly the retract branch. -/
theorem applyCorrection_retract_ok_inv (st : FactStore)
    (input : ApplyCorrectionInput) (now : Nat) (cid nid : String)
    (st' : FactStore) (ops : List GraphOp)
    (hact : input.action = .retract)
    (hok : applyCorrection st input now cid nid = .ok (st', ops)) :
    ∃ t, findTarget st input.targetAssertionId = some t ∧
      st' = { assertions := closeRows st.assertions t.id .retracted now
              corrections := st.corrections ++
                [{ id := cid, targetAssertionId := t.id, action := .retract,
                   reason := input.reason, createdBy := input.createdBy,
                   newAssertionId := none }] } ∧
      ops = [GraphOp.closeEdges [t.id] .retracted now] := by
  unfold applyCorrection at hok
  cases hfind : findTarget st input.targetAssertionId with
  | none => rw [hfind] at hok; simp at hok
  | some t =>
    rw [hfind] at hok
    dsimp only at hok
    rw [if_pos hact] at hok
    refine ⟨t, rfl, ?_, ?_⟩
    · have := congrArg Prod.fst (Except.ok.inj hok)
      simpa [retractBranch] using this.symm
    · have := congrArg Prod.snd (Except.ok.inj hok)
      simpa [retractBranch] using this.symm

/-- Inversion of a successful supersede/override call. -/
theorem applyCorrection_supersede_ok_inv (st : FactStore)
    (input : ApplyCorrectionInput) (now : Nat) (cid nid : String)
    (st' : FactStore) (ops : List GraphOp)
    (hact : input.action ≠ .retract)
    (hok : applyCorrection st input now cid nid = .ok (st', ops)) :
    ∃ t, findTarget st input.targetAssertionId = some t ∧
      st' = { assertions := closeRows st.assertions t.id .superseded now ++
                [newAssertionRowOf t input now nid]
              corrections := st.corrections ++
                [{ id := cid, targetAssertionId := t.id, action := input.action,
                   reason := input.reason, createdBy := input.createdBy,
                   newAssertionId := some nid }] } := by
  unfold applyCorrection at hok
  cases hfind : findTarget st input.targetAssertionId with
  | none => rw [hfind] at hok; simp at hok
  | some t =>
    rw [hfind] at hok
    dsimp only at hok
    rw [if_neg hact] at hok
    refine ⟨t, rfl, ?_⟩
    unfold supersedeBranch at hok
    cases hobj : newObjectOf t input with
    | none => rw [hobj] at hok; simp at hok
    | some obj =>
      rw [hobj] at hok
      dsimp only at hok
      by_cases hobj0 : obj = ""
      · rw [if_pos hobj0] at hok; simp at hok
      · rw [if_neg hobj0] at hok
        by_cases hpred : newPredicateOf t input = ""
        · rw [if_pos hpred] at hok; simp at hok
        · rw [if_neg hpred] at hok
          have := congrArg Prod.fst (Except.ok.inj hok)
          exact this.symm

/-- C1: for every existing assertion and every successful supersede/override
call targeting it, the target's subjectEntityId/predicate/objectEntityId are
never changed in the fact store — the target row keeps its id and every
fact-carrying field, only its status (to superseded) and validTo (to the
correction time) are updated — while a brand-new assertion row with the
fresh id carries the new subject/predicate/object. -/
theorem applyCorrection_supersede_frame (st : FactStore)
    (input : ApplyCorrectionInput) (now : Nat) (cid nid : String)
    (st' : FactStore) (ops : List GraphOp)
    (hact : input.action ≠ .retract)
    (hfresh : ∀ a ∈ st.assertions, a.id ≠ nid)
    (hok : applyCorrection st input now cid nid = .ok (st', ops)) :
    (∀ a ∈ st.assertions, a.id = input.targetAssertionId →
        ({ a with status := .superseded, validTo := some now } : Assertion) ∈
          st'.assertions) ∧
    (∀ a ∈ st.assertions, a.id ≠ input.targetAssertionId → a ∈ st'.assertions) ∧
    (∀ b ∈ st'.assertions, b.id ≠ nid →
        ∃ a ∈ st.assertions, a.id = b.id ∧
          b.subjectEntityId = a.subjectEntityId ∧
          b.predicate = a.predicate ∧
          b.objectEntityId = a.objectEntityId ∧
          b.confidence = a.confidence ∧
          b.sourceDocumentId = a.sourceDocumentId ∧
          b.sourceChunkId = a.sourceChunkId ∧
          b.validFrom = a.validFrom) ∧
    (∃ b ∈ st'.assertions, b.id = nid ∧ b.status = .active ∧ b.validFrom = now ∧
        ∀ d, input.newAssertion = some d →
          (∀ s, d.subjectEntityId = some s → b.subjectEntityId = s) ∧
          (∀ p, d.predicate = some p → b.predicate = p) ∧
          (∀ o, d.objectEntityId = some o → b.objectEntityId = some o)) ∧
    st'.assertions.countP (fun b => b.id == nid) = 1 := by
  obtain ⟨t, hfind, hst⟩ :=
    applyCorrection_supersede_ok_inv st input now cid nid st' ops hact hok
  have htid : t.id = input.targetAssertionId := findTarget_id st _ t hfind
  subst hst
  refine ⟨?_, ?_, ?_, ?_, ?_⟩
  · intro a ha hid
    exact List.mem_append_left _
      (mem_closeRows_self st.assertions t.id .superseded now a ha (htid ▸ hid))
  · intro a ha hid
    exact List.mem_append_left _
      (mem_closeRows_other st.assertions t.id .superseded now a ha (htid ▸ hid))
  · intro b hb hbnid
    rcases List.mem_append.mp hb with hb1 | hb2
    · obtain ⟨a, ha, hba⟩ := closeRows_src st.assertions t.id .superseded now b hb1
      by_cases hid : a.id = t.id
      · rw [if_pos hid] at hba
        subst hba
        exact ⟨a, ha, rfl, rfl, rfl, rfl, rfl, rfl, rfl, rfl⟩
      · rw [if_neg hid] at hba
        exact ⟨a, ha, by rw [hba], by rw [hba], by rw [hba], by rw [hba],
          by rw [hba], by rw [hba], by rw [hba], by rw [hba]⟩
    · simp only [List.mem_singleton] at hb2
      exact absurd (by simp [hb2, newAssertionRowOf]) hbnid
  · refine ⟨newAssertionRowOf t input now nid, List.mem_append_right _ (by simp), rfl,
      rfl, rfl, ?_⟩
    intro d hd
    refine ⟨?_, ?_, ?_⟩
    · intro s hs
      simp [newAssertionRowOf, newSubjectOf, draftOf, hd, hs]
    · intro p hp
      simp [newAssertionRowOf, newPredicateOf, draftOf, hd, hp]
    · intro o ho
      simp [newAssertionRowOf, newObjectOf, draftOf, hd, ho, Option.orElse]
  · dsimp only
    rw [List.countP_append]
    have h0 : (closeRows st.assertions t.id .superseded now).countP
        (fun b => b.id == nid) = 0 := by
      rw [List.countP_eq_zero]
      intro b hb
      obtain ⟨a, ha, hba⟩ := closeRows_src st.assertions t.id .superseded now b hb
      have hbid : b.id = a.id := by
        by_cases hid : a.id = t.id
        · rw [if_pos hid] at hba; rw [hba]
        · rw [if_neg hid] at hba; rw [hba]
      simp [hbid, hfresh a ha]
    rw [h0]
    simp [newAssertionRowOf]

/-- Witness for C1: superseding the sample assertion `a1` with a draft that
only overrides the object leaves the closed copy of `a1` in the store and
adds a fresh active row `n1` carrying the new object. -/
theorem applyCorrection_supersede_frame_witness :
    ({ exTarget with status := .superseded, validTo := some 7 } : Assertion) ∈
      (applyCorrectionRun exStore exSupersedeInput 7 "cS" "n1").1.assertions ∧
    0 < (applyCorrectionRun exStore exSupersedeInput 7 "cS" "n1").1.assertions.countP
      (fun b => b.id == "n1" && b.objectEntityId == some "o2") ∧
    (applyCorrectionRun exStore exSupersedeInput 7 "cS" "n1").1.assertions.countP
      (fun b => b.id == "n1") = 1 := by
  have h := applyCorrection_supersede_frame exStore exSupersedeInput 7 "cS" "n1"
    (applyCorrectionRun exStore exSupersedeInput 7 "cS" "n1").1
    (applyCorrectionRun exStore exSupersedeInput 7 "cS" "n1").2
    (by decide) (by decide) rfl
  refine ⟨h.1 exTarget (by simp [exStore]) rfl, ?_, h.2.2.2.2⟩
  obtain ⟨b, hb, hbid, hbact, _, hdraft⟩ := h.2.2.2.1
  obtain ⟨_, _, hobj⟩ := hdraft _ rfl
  exact List.countP_pos_iff.mpr ⟨b, hb, by simp [hbid, hobj "o2" rfl]⟩

/-- C2: a retract call against a missing target id fails with the not-found
error and performs no fact-store write and no graph call; against an
existing target it atomically (one transaction, modelled as one state
transformation) sets the target's status to retracted and validTo to the
correction time, inserts exactly one Correction row with action retract, and
returns exactly one graph-edge closure call for the target id as the single
post-commit graph operation. -/
theorem applyCorrection_retract_spec (st : FactStore)
    (input : ApplyCorrectionInput) (now : Nat) (cid nid : String)
    (hact : input.action = .retract) :
    (findTarget st input.targetAssertionId = none →
      applyCorrection st input now cid nid =
        .error (retractErrMsg input.targetAssertionId) ∧
      applyCorrectionRun st input now cid nid = (st, [])) ∧
    (∀ t, findTarget st input.targetAssertionId = some t →
      ∃ st', applyCorrection st input now cid nid =
          .ok (st', [GraphOp.closeEdges [input.targetAssertionId] .retracted now]) ∧
        (∀ a ∈ st.assertions, a.id = input.targetAssertionId →
          ({ a with status := .retracted, validTo := some now } : Assertion) ∈
            st'.assertions) ∧
        (∀ a ∈ st.assertions, a.id ≠ input.targetAssertionId → a ∈ st'.assertions) ∧
        st'.assertions.length = st.assertions.length ∧
        st'.corrections = st.corrections ++
          [{ id := cid, targetAssertionId := input.targetAssertionId,
             action := .retract, reason := input.reason,
             createdBy := input.createdBy, newAssertionId := none }]) := by
  constructor
  · intro hnone
    have herr : applyCorrection st input now cid nid =
        .error (retractErrMsg input.targetAssertionId) := by
      unfold applyCorrection
      rw [hnone]
    exact ⟨herr, by simp [applyCorrectionRun, herr]⟩
  · intro t hfind
    have htid : t.id = input.targetAssertionId := findTarget_id st _ t hfind
    have hok : applyCorrection st input now cid nid =
        .ok (retractBranch st t input now cid) := by
      unfold applyCorrection
      rw [hfind]
      dsimp only
      rw [if_pos hact]
    refine ⟨(retractBranch st t input now cid).1, ?_, ?_, ?_, ?_, ?_⟩
    · rw [hok]
      simp [retractBranch, htid]
    · intro a ha hid
      exact mem_closeRows_self st.assertions t.id .retracted now a ha (htid ▸ hid)
    · intro a ha hid
      exact mem_closeRows_other st.assertions t.id .retracted now a ha (htid ▸ hid)
    · simp [retractBranch, closeRows]
    · simp [retractBranch, htid]

/-- Witness for C2: retracting against the empty store fails without a
write; retracting `a1` in the sample store closes it at time 5 and appends
the single retract Correction row. -/
theorem applyCorrection_retract_spec_witness :
    applyCorrectionRun exEmptyStore exRetractInput 5 "c1" "n1" = (exEmptyStore, []) ∧
    (applyCorrectionRun exStore exRetractInput 5 "c1" "n1").2 =
      [GraphOp.closeEdges ["a1"] .retracted 5] ∧
    (applyCorrectionRun exStore exRetractInput 5 "c1" "n1").1.corrections =
      [{ id := "c1", targetAssertionId := "a1", action := .retract,
         reason := some "bad fact", createdBy := none,
         newAssertionId := none }] := by
  refine ⟨?_, ?_, ?_⟩
  · exact ((applyCorrection_retract_spec exEmptyStore exRetractInput 5 "c1" "n1"
      rfl).1 (by decide)).2
  · obtain ⟨st', hok, _⟩ :=
      (applyCorrection_retract_spec exStore exRetractInput 5 "c1" "n1" rfl).2
        exTarget rfl
    unfold applyCorrectionRun
    rw [hok]
    rfl
  · obtain ⟨st', hok, _, _, _, hcorr⟩ :=
      (applyCorrection_retract_spec exStore exRetractInput 5 "c1" "n1" rfl).2
        exTarget rfl
    have h1 : (applyCorrectionRun exStore exRetractInput 5 "c1" "n1").1 = st' := by
      unfold applyCorrectionRun
      rw [hok]
    rw [h1]
    simpa [exStore] using hcorr

/-- C10: when a supersede/override draft omits confidence, the inserted
assertion's confidence is the constant 0.9 regardless of the target's
confidence, while subject, predicate, object, source document and source
chunk are inherited from the target whenever the draft leaves them unset. -/
theorem applyCorrection_confidence_not_inherited (st : FactStore)
    (input : ApplyCorrectionInput) (now : Nat) (cid nid : String)
    (st' : FactStore) (ops : List GraphOp)
    (hact : input.action ≠ .retract)
    (hconf : (draftOf input).confidence = none)
    (hok : applyCorrection st input now cid nid = .ok (st', ops)) :
    ∃ t, findTarget st input.targetAssertionId = some t ∧
      ∃ b ∈ st'.assertions, b.id = nid ∧
        b.confidence = 9 / 10 ∧
        ((draftOf input).subjectEntityId = none →
          b.subjectEntityId = t.subjectEntityId) ∧
        ((draftOf input).predicate = none → b.predicate = t.predicate) ∧
        ((draftOf input).objectEntityId = none →
          b.objectEntityId = t.objectEntityId) ∧
        ((draftOf input).sourceDocumentId = none →
          b.sourceDocumentId = t.sourceDocumentId) ∧
        ((draftOf input).sourceChunkId = none →
          b.sourceChunkId = t.sourceChunkId) := by
  obtain ⟨t, hfind, hst⟩ :=
    applyCorrection_supersede_ok_inv st input now cid nid st' ops hact hok
  subst hst
  refine ⟨t, hfind, newAssertionRowOf t input now nid,
    List.mem_append_right _ (by simp), rfl, ?_, ?_, ?_, ?_, ?_, ?_⟩
  · simp [newAssertionRowOf, newConfidenceOf, hconf]
  · intro h
    simp [newAssertionRowOf, newSubjectOf, h]
  · intro h
    simp [newAssertionRowOf, newPredicateOf, h]
  · intro h
    simp [newAssertionRowOf, newObjectOf, h, Option.orElse]
  · intro h
    simp [newAssertionRowOf, newSourceDocumentOf, h]
  · intro h
    simp [newAssertionRowOf, newSourceChunkOf, h, Option.orElse]

/-- Witness for C10: the sample supersede draft (object-only) yields a new
row with confidence 0.9 even though the target's confidence is 0.5, and the
subject is inherited. -/
theorem applyCorrection_confidence_not_inherited_witness :
    exTarget.confidence = 1 / 2 ∧
    0 < (applyCorrectionRun exStore exSupersedeInput 7 "cS" "n1").1.assertions.countP
      (fun b => b.id == "n1" && b.confidence == (9 : ℚ) / 10 &&
        b.subjectEntityId == "s1") := by
  have h := applyCorrection_confidence_not_inherited exStore exSupersedeInput 7
    "cS" "n1"
    (applyCorrectionRun exStore exSupersedeInput 7 "cS" "n1").1
    (applyCorrectionRun exStore exSupersedeInput 7 "cS" "n1").2
    (by decide) (by decide) rfl
  obtain ⟨t, hfind, b, hb, hbid, hbconf, hsub, _⟩ := h
  have ht : t = exTarget := by
    have : findTarget exStore exSupersedeInput.targetAssertionId = some exTarget := rfl
    rw [this] at hfind
    exact (Option.some.inj hfind).symm
  subst ht
  refine ⟨rfl, List.countP_pos_iff.mpr ⟨b, hb, ?_⟩⟩
  have hs : b.subjectEntityId = "s1" := by simpa using hsub (by decide)
  simp [hbid, hbconf, hs]

theorem applyCorrectionRun_preserves_cover (st : FactStore)
    (input : ApplyCorrectionInput) (now : Nat) (cid nid : String)
    (h : terminalHasCorrection st) :
    terminalHasCorrection (applyCorrectionRun st input now cid nid).1 := by
  rcases hE : applyCorrection st input now cid nid with msg | r
  · simpa [applyCorrectionRun, hE] using h
  · obtain ⟨st', ops⟩ := r
    have h1 : (applyCorrectionRun st input now cid nid).1 = st' := by
      simp [applyCorrectionRun, hE]
    rw [h1]
    by_cases hact : input.action = .retract
    · obtain ⟨t, _, hst, _⟩ :=
        applyCorrection_retract_ok_inv st input now cid nid st' ops hact hE
      subst hst
      intro a ha hterm
      obtain ⟨a0, ha0, hba⟩ := closeRows_src st.assertions t.id .retracted now a ha
      by_cases hid : a0.id = t.id
      · refine ⟨{ id := cid, targetAssertionId := t.id, action := .retract,
                  reason := input.reason, createdBy := input.createdBy,
                  newAssertionId := none },
          List.mem_append_right _ (by simp), ?_⟩
        rw [if_pos hid] at hba
        rw [hba]
        exact hid.symm
      · rw [if_neg hid] at hba
        subst hba
        obtain ⟨c, hc, hct⟩ := h a ha0 hterm
        exact ⟨c, List.mem_append_left _ hc, hct⟩
    · obtain ⟨t, _, hst⟩ :=
        applyCorrection_supersede_ok_inv st input now cid nid st' ops hact hE
      subst hst
      intro a ha hterm
      rcases List.mem_append.mp ha with hin | hnew
      · obtain ⟨a0, ha0, hba⟩ := closeRows_src st.assertions t.id .superseded now a hin
        by_cases hid : a0.id = t.id
        · refine ⟨{ id := cid, targetAssertionId := t.id, action := input.action,
                    reason := input.reason, createdBy := input.createdBy,
                    newAssertionId := some nid },
            List.mem_append_right _ (by simp), ?_⟩
          rw [if_pos hid] at hba
          rw [hba]
          exact hid.symm
        · rw [if_neg hid] at hba
          subst hba
          obtain ⟨c, hc, hct⟩ := h a ha0 hterm
          exact ⟨c, List.mem_append_left _ hc, hct⟩
      · simp only [List.mem_singleton] at hnew
        rw [hnew] at hterm
        rcases hterm with hterm | hterm <;> simp [newAssertionRowOf] at hterm

/-- C3 (amended): after any sequence of applyCorrection operations starting
from a store in which every retracted/superseded assertion is referenced by
a Correction row, every retracted/superseded assertion is referenced as
targetAssertionId by at least one Correction row; and the store itself does
not reject applying retract to an assertion that is already terminal — the
retract branch succeeds whenever the target id exists, regardless of its
current status.  (Exactly one row is refuted by the counterexample: a second
retract of the same target inserts a second Correction row.) -/
theorem corrections_cover_terminal_assertions :
    (∀ (st : FactStore) (calls : List CorrectionCall),
      terminalHasCorrection st → terminalHasCorrection (runCorrections st calls)) ∧
    (∀ (st : FactStore) (input : ApplyCorrectionInput) (now : Nat) (cid nid : String) t,
      input.action = .retract →
      findTarget st input.targetAssertionId = some t →
      applyCorrection st input now cid nid =
        .ok (retractBranch st t input now cid)) := by
  constructor
  · intro st calls
    induction calls generalizing st with
    | nil => intro h; simpa [runCorrections] using h
    | cons c cs ih =>
      intro h
      exact ih _ (applyCorrectionRun_preserves_cover st c.input c.now
        c.correctionId c.newId h)
  · intro st input now cid nid t hact hfind
    unfold applyCorrection
    rw [hfind]
    dsimp only
    rw [if_pos hact]

/-- Witness for C3: starting from the sample store (all assertions active,
no corrections) and retracting `a1` twice, every terminal assertion is
covered by at least one Correction row; and the second retract call — whose
target is already retracted — is accepted by the store. -/
theorem corrections_cover_terminal_assertions_witness :
    terminalHasCorrection
      (runCorrections exStore
        [{ input := exRetractInput, now := 5, correctionId := "c1", newId := "n1" },
         { input := exRetractInput, now := 6, correctionId := "c2", newId := "n2" }]) ∧
    applyCorrection exStoreR1 exRetractInput 6 "c2" "n2" =
      .ok (retractBranch exStoreR1
        { exTarget with status := .retracted, validTo := some 5 }
        exRetractInput 6 "c2") := by
  constructor
  · exact corrections_cover_terminal_assertions.1 exStore _ (by decide)
  · exact corrections_cover_terminal_assertions.2 exStoreR1 exRetractInput 6 "c2"
      "n2" { exTarget with status := .retracted, validTo := some 5 } rfl rfl

/-- Counterexample for C3 as stated: after retracting `a1` twice (the store
accepts the second retract), the retracted assertion `a1` is referenced as
target by two Correction rows, not exactly one. -/
theorem corrections_exactly_one_counterexample :
    (applyCorrection exStoreR1 exRetractInput 6 "c2" "n2").isOk = true ∧
    ({ exTarget with status := .retracted, validTo := some 6 } : Assertion) ∈
      exStoreR2.assertions ∧
    ({ exTarget with status := .retracted, validTo := some 6 } : Assertion).status =
      .retracted ∧
    exStoreR2.corrections.countP (fun c => c.targetAssertionId == "a1") = 2 := by
  exact ⟨rfl, List.mem_singleton.mpr rfl, rfl, rfl⟩

/-! ## Conflict-detector lemmas -/

theorem conflictPredicates_ne_nil (o : Option (List String)) :
    conflictPredicates o ≠ [] := by
  cases o with
  | none => simp [conflictPredicates, SINGLE_VALUED_PREDICATES]
  | some ps =>
    by_cases h : ps = [] <;>
      simp [conflictPredicates, h, SINGLE_VALUED_PREDICATES]

theorem conflictKey_eq_of (a b : Assertion)
    (hs : a.subjectEntityId = b.subjectEntityId) (hp : a.predicate = b.predicate) :
    conflictKey a = conflictKey b := by
  simp [conflictKey, hs, hp]

/-- Every reported group carries the subject/predicate of one of the scanned
rows. -/
theorem groupConflictRows_subject_pred (rows : List Assertion) :
    ∀ g ∈ groupConflictRows rows, ∃ r ∈ rows,
      g.subjectEntityId = r.subjectEntityId ∧ g.predicate = r.predicate := by
  induction rows using groupConflictRows.induct with
  | case1 => simp [groupConflictRows]
  | case2 r rs ih =>
    intro g hg
    rw [groupConflictRows, List.mem_cons] at hg
    rcases hg with hg | hg
    · exact ⟨r, List.mem_cons_self _ _, by rw [hg], by rw [hg]⟩
    · obtain ⟨r0, hr0, h1, h2⟩ := ih g hg
      exact ⟨r0, List.mem_cons_of_mem _ (List.mem_of_mem_filter hr0), h1, h2⟩

/-- Under injective grouping keys, the `Map`-grouping produces exactly one
group per populated (S, P) pair, whose accumulated ids/objects are exactly
the matching rows in scan order. -/
theorem groupConflictRows_count_ids (rows : List Assertion)
    (hkey : ∀ a ∈ rows, ∀ b ∈ rows, conflictKey a = conflictKey b →
      a.subjectEntityId = b.subjectEntityId ∧ a.predicate = b.predicate)
    (S P : String) :
    ((groupConflictRows rows).countP (groupSP S P) =
      if rows.filter (matchSP S P) = [] then 0 else 1) ∧
    ∀ g ∈ groupConflictRows rows, groupSP S P g = true →
      g.assertionIds = (rows.filter (matchSP S P)).map (·.id) ∧
      g.objectEntityIds = (rows.filter (matchSP S P)).map (·.objectEntityId) := by
  induction rows using groupConflictRows.induct with
  | case1 => simp [groupConflictRows]
  | case2 r rs ih =>
    have hmemr : r ∈ r :: rs := List.mem_cons_self _ _
    have hkey_tail : ∀ a ∈ rs.filter (fun x => conflictKey x ≠ conflictKey r),
        ∀ b ∈ rs.filter (fun x => conflictKey x ≠ conflictKey r),
          conflictKey a = conflictKey b →
            a.subjectEntityId = b.subjectEntityId ∧ a.predicate = b.predicate := by
      intro a ha b hb
      exact hkey a (List.mem_cons_of_mem _ (List.mem_of_mem_filter ha))
        b (List.mem_cons_of_mem _ (List.mem_of_mem_filter hb))
    obtain ⟨ihCount, ihIds⟩ := ih hkey_tail
    by_cases hr : matchSP S P r = true
    · -- the head row belongs to the (S, P) group
      have hrS : r.subjectEntityId = S ∧ r.predicate = P := by
        simpa [matchSP] using hr
      have hsame : ∀ x ∈ rs,
          (decide (conflictKey x = conflictKey r)) = matchSP S P x := by
        intro x hx
        by_cases hk : conflictKey x = conflictKey r
        · obtain ⟨hs, hp⟩ := hkey x (List.mem_cons_of_mem _ hx) r hmemr hk
          simp [hk, matchSP, hs, hp, hrS.1, hrS.2]
        · cases hm : matchSP S P x with
          | false => simp [hk, hm]
          | true =>
            obtain ⟨hs, hp⟩ : x.subjectEntityId = S ∧ x.predicate = P := by
              simpa [matchSP] using hm
            exact absurd
              (conflictKey_eq_of x r (hs.trans hrS.1.symm) (hp.trans hrS.2.symm)) hk
      have hfilter_same :
          rs.filter (fun x => decide (conflictKey x = conflictKey r)) =
            rs.filter (matchSP S P) := List.filter_congr (by
        intro x hx
        exact hsame x hx)
      have hfilter_cons :
          (r :: rs).filter (matchSP S P) = r :: rs.filter (matchSP S P) := by
        simp [hr]
      have hnoB : ∀ x ∈ rs.filter (fun x => conflictKey x ≠ conflictKey r),
          ¬ matchSP S P x = true := by
        intro x hx hm
        have hxk : ¬ conflictKey x = conflictKey r := by
          have := List.of_mem_filter hx
          simpa using this
        obtain ⟨hs, hp⟩ : x.subjectEntityId = S ∧ x.predicate = P := by
          simpa [matchSP] using hm
        exact hxk (conflictKey_eq_of x r (hs.trans hrS.1.symm) (hp.trans hrS.2.symm))
      have hcountB :
          (groupConflictRows
            (rs.filter (fun x => conflictKey x ≠ conflictKey r))).countP
              (groupSP S P) = 0 := by
        rw [List.countP_eq_zero]
        intro g hg hgsp
        obtain ⟨x, hx, hs, hp⟩ :=
          groupConflictRows_subject_pred _ g hg
        refine hnoB x hx ?_
        obtain ⟨h1, h2⟩ : g.subjectEntityId = S ∧ g.predicate = P := by
          simpa [groupSP] using hgsp
        simp [matchSP, hs ▸ h1, hp ▸ h2]
      constructor
      · rw [groupConflictRows, List.countP_cons, hcountB, hfilter_cons]
        have hg0 : (r.subjectEntityId == S && r.predicate == P) = true := hr
        simp [groupSP, hg0]
      · intro g hg hgsp
        rw [groupConflictRows, List.mem_cons] at hg
        rcases hg with hg | hg
        · subst hg
          rw [hfilter_cons]
          constructor
          · simp [hfilter_same]
          · simp [hfilter_same]
        · exfalso
          have := hcountB
          rw [List.countP_eq_zero] at this
          exact this g hg hgsp
    · -- the head row does not match (S, P)
      have hg0 : groupSP S P
          { subjectEntityId := r.subjectEntityId, predicate := r.predicate
            assertionIds :=
              (r :: rs.filter (fun x => conflictKey x = conflictKey r)).map (·.id)
            objectEntityIds :=
              (r :: rs.filter (fun x => conflictKey x = conflictKey r)).map
                (·.objectEntityId) } = false := by
        have : ¬ ((r.subjectEntityId == S && r.predicate == P) = true) := by
          simpa [matchSP] using hr
        simpa [groupSP] using this
      have hfilterB :
          (rs.filter (fun x => conflictKey x ≠ conflictKey r)).filter (matchSP S P) =
            rs.filter (matchSP S P) := by
        rw [List.filter_filter]
        refine List.filter_congr ?_
        intro x hx
        by_cases hm : matchSP S P x = true
        · have hxk : conflictKey x ≠ conflictKey r := by
            intro hk
            obtain ⟨hs, hp⟩ := hkey x (List.mem_cons_of_mem _ hx) r hmemr hk
            obtain ⟨h1, h2⟩ : x.subjectEntityId = S ∧ x.predicate = P := by
              simpa [matchSP] using hm
            exact hr (by simp [matchSP, hs ▸ h1, hp ▸ h2])
          simp [hm, hxk]
        · simp [Bool.not_eq_true] at hm
          simp [hm]
      have hfilter_cons :
          (r :: rs).filter (matchSP S P) = rs.filter (matchSP S P) := by
        simp [Bool.not_eq_true] at hr
        simp [hr]
      constructor
      · rw [groupConflictRows, List.countP_cons, hg0, ihCount, hfilterB, hfilter_cons]
        simp
      · intro g hg hgsp
        rw [groupConflictRows, List.mem_cons] at hg
        rcases hg with hg | hg
        · rw [hg] at hgsp
          rw [hg0] at hgsp
          cases hgsp
        · obtain ⟨h1, h2⟩ := ihIds g hg hgsp
          rw [hfilterB] at h1 h2
          rw [hfilter_cons]
          exact ⟨h1, h2⟩

/-- C4: with no scan truncation (the matching rows fit the select limit) and
grouping keys injective on the scanned rows (entity ids are UUIDs, so the
subject:predicate key determines the pair), detectConflicts scans exactly
the active, currently-valid assertions whose predicate is configured
single-valued, groups them by (subjectEntityId, predicate), and reports
exactly one group for a pair iff its set of distinct object values (NULL
sentinel for a missing object) has size > 1; a reported group lists exactly
the contributing assertion ids. -/
theorem detectConflicts_single_valued_spec (st : FactStore)
    (predicatesOpt : Option (List String)) (limitOpt : Option Nat) (S P : String)
    (hlen : (st.assertions.filter (fun a =>
        a.status == AssertionStatus.active && a.validTo == none &&
          (conflictPredicates predicatesOpt).contains a.predicate)).length ≤
      conflictLimit limitOpt)
    (hkey : ∀ a ∈ conflictRows st (conflictPredicates predicatesOpt)
        (conflictLimit limitOpt),
      ∀ b ∈ conflictRows st (conflictPredicates predicatesOpt)
        (conflictLimit limitOpt),
        conflictKey a = conflictKey b →
          a.subjectEntityId = b.subjectEntityId ∧ a.predicate = b.predicate) :
    conflictRows st (conflictPredicates predicatesOpt) (conflictLimit limitOpt) =
      st.assertions.filter (fun a =>
        a.status == AssertionStatus.active && a.validTo == none &&
          (conflictPredicates predicatesOpt).contains a.predicate) ∧
    ((detectConflicts st predicatesOpt limitOpt).countP (groupSP S P) =
      if 1 < (conflictValues (conflictRowsFor st predicatesOpt limitOpt S P)).length
      then 1 else 0) ∧
    ∀ g ∈ detectConflicts st predicatesOpt limitOpt, groupSP S P g = true →
      g.assertionIds = (conflictRowsFor st predicatesOpt limitOpt S P).map (·.id) := by
  have hrows : conflictRows st (conflictPredicates predicatesOpt)
      (conflictLimit limitOpt) =
      st.assertions.filter (fun a =>
        a.status == AssertionStatus.active && a.validTo == none &&
          (conflictPredicates predicatesOpt).contains a.predicate) := by
    unfold conflictRows
    exact List.take_of_length_le hlen
  have hne : conflictPredicates predicatesOpt ≠ [] :=
    conflictPredicates_ne_nil predicatesOpt
  have hdet : detectConflicts st predicatesOpt limitOpt =
      (groupConflictRows (conflictRows st (conflictPredicates predicatesOpt)
        (conflictLimit limitOpt))).filter (fun g => 1 < distinctObjectCount g) := by
    unfold detectConflicts
    simp [hne]
  obtain ⟨hcount, hids⟩ :=
    groupConflictRows_count_ids
      (conflictRows st (conflictPredicates predicatesOpt) (conflictLimit limitOpt))
      hkey S P
  have hvals : ∀ g ∈ groupConflictRows (conflictRows st
      (conflictPredicates predicatesOpt) (conflictLimit limitOpt)),
      groupSP S P g = true →
      distinctObjectCount g =
        (conflictValues (conflictRowsFor st predicatesOpt limitOpt S P)).length := by
    intro g hg hgsp
    obtain ⟨_, h2⟩ := hids g hg hgsp
    unfold distinctObjectCount conflictValues conflictRowsFor
    rw [h2, List.map_map]
    rfl
  refine ⟨hrows, ?_, ?_⟩
  · rw [hdet, List.countP_filter]
    by_cases hsp : conflictRowsFor st predicatesOpt limitOpt S P = []
    · have hz : (groupConflictRows (conflictRows st
          (conflictPredicates predicatesOpt) (conflictLimit limitOpt))).countP
            (groupSP S P) = 0 := by
        rw [hcount, if_pos]
        exact hsp
      have hle := List.countP_mono_left (l :=
        groupConflictRows (conflictRows st (conflictPredicates predicatesOpt)
          (conflictLimit limitOpt)))
        (p := fun g => groupSP S P g && decide (1 < distinctObjectCount g))
        (q := groupSP S P) (by
          intro g _ h
          exact (Bool.and_eq_true_iff.mp h).1)
      rw [hz] at hle
      have : (groupConflictRows (conflictRows st (conflictPredicates predicatesOpt)
          (conflictLimit limitOpt))).countP
            (fun g => groupSP S P g && decide (1 < distinctObjectCount g)) = 0 :=
        Nat.le_zero.mp hle
      rw [this, hsp]
      simp [conflictValues]
    · have hcond : ∀ g ∈ groupConflictRows (conflictRows st
          (conflictPredicates predicatesOpt) (conflictLimit limitOpt)),
          (groupSP S P g && decide (1 < distinctObjectCount g)) =
            (groupSP S P g && decide (1 <
              (conflictValues (conflictRowsFor st predicatesOpt limitOpt S P)).length)) := by
        intro g hg
        by_cases hgsp : groupSP S P g = true
        · rw [hgsp]
          simp only [Bool.true_and]
          rw [hvals g hg hgsp]
        · simp [Bool.not_eq_true] at hgsp
          simp [hgsp]
      rw [List.countP_congr (by
        intro g hg
        rw [hcond g hg])]
      by_cases hv : 1 <
          (conflictValues (conflictRowsFor st predicatesOpt limitOpt S P)).length
      · rw [if_pos hv]
        have : ∀ g, (groupSP S P g && decide (1 <
            (conflictValues (conflictRowsFor st predicatesOpt limitOpt S P)).length)) =
            groupSP S P g := by
          intro g
          simp [hv]
        simp only [this]
        have hsp2 : (conflictRows st (conflictPredicates predicatesOpt)
            (conflictLimit limitOpt)).filter (matchSP S P) ≠ [] := hsp
        rw [hcount, if_neg hsp2]
      · rw [if_neg hv]
        rw [List.countP_eq_zero]
        intro g _
        simp [hv]
  · intro g hg hgsp
    rw [hdet] at hg
    exact (hids g (List.mem_of_mem_filter hg) hgsp).1

/-- Witness for C4: in the fixture store, subject S has active CEO
assertions at objects O1, O2 and O1 again; detectConflicts reports exactly
one (S, CEO) group, listing all three assertion ids (the repeated O1 does
not create a second group). -/
theorem detectConflicts_single_valued_spec_witness :
    (detectConflicts exConflictStore none none).countP (groupSP "S" "CEO") = 1 ∧
    (conflictRowsFor exConflictStore none none "S" "CEO").map (fun a => a.id) =
      ["A1", "A2", "A3"] ∧
    (conflictValues (conflictRowsFor exConflictStore none none "S" "CEO")).length = 2 := by
  have h := detectConflicts_single_valued_spec exConflictStore none none "S" "CEO"
    (by decide) (by decide)
  refine ⟨?_, by decide, by decide⟩
  rw [h.2.1]
  decide

/-! ## Vector-search broadening lemmas -/

theorem dedupFirst_sublist [DecidableEq α] (l : List α) :
    List.Sublist (dedupFirst l) l := by
  induction l with
  | nil => simp [dedupFirst]
  | cons x xs ih =>
    rw [dedupFirst]
    exact ((List.filter_sublist _).trans ih).cons₂ x

theorem dedupFirst_nodup [DecidableEq α] (l : List α) : (dedupFirst l).Nodup := by
  induction l with
  | nil => simp [dedupFirst]
  | cons x xs ih =>
    rw [dedupFirst, List.nodup_cons]
    refine ⟨?_, ih.filter _⟩
    intro hx
    have := List.of_mem_filter hx
    simp at this

theorem tryAttempts_eq_find (search : List FilterCond → List VectorSearchHit)
    (l : List (List FilterCond)) :
    tryAttempts search l =
      ((l.map search).find? (fun h => !h.isEmpty)).getD [] := by
  induction l with
  | nil => simp [tryAttempts]
  | cons f rest ih =>
    cases rest with
    | nil =>
      cases he : (search f).isEmpty with
      | true =>
        have : search f = [] := List.isEmpty_iff.mp he
        simp [tryAttempts, this]
      | false => simp [tryAttempts, List.find?, he]
    | cons g rest2 =>
      cases he : (search f).isEmpty with
      | true =>
        rw [tryAttempts]
        rw [if_pos he]
        rw [ih]
        simp [List.find?, he]
      | false =>
        rw [tryAttempts]
        rw [if_neg (by simp [he])]
        simp [List.find?, he]

/-- C5: vectorSearchChunks tries the full filter set first, then drops
dimensions in priority order (accessionNo, then docType, then cik, ending in
the global empty filter set); the attempt chain is deduplicated so each
distinct subset is tried at most once (at most 4 attempts), and the result
is the hit list of the first attempt returning non-empty hits (empty when
every attempt is empty). -/
theorem vectorSearchChunks_broadening (qsearch : List FilterCond → List VectorPoint)
    (query : String) (filters : VectorSearchFilters)
    (hq : jsTrim query ≠ "")
    (chain : List (List FilterCond))
    (hchain : chain = dedupFirst (broadeningAttempts filters)) :
    chain.head? =
      some (cikMust filters ++ docTypeMust filters ++ accessionMust filters) ∧
    List.Sublist chain
      [cikMust filters ++ docTypeMust filters ++ accessionMust filters,
       cikMust filters ++ docTypeMust filters,
       cikMust filters,
       []] ∧
    chain.Nodup ∧
    chain.length ≤ 4 ∧
    vectorSearchChunks qsearch query filters =
      ((chain.map (searchWith qsearch)).find? (fun h => !h.isEmpty)).getD [] := by
  subst hchain
  have hsub : List.Sublist (dedupFirst (broadeningAttempts filters))
      (broadeningAttempts filters) := dedupFirst_sublist _
  refine ⟨?_, hsub, dedupFirst_nodup _, ?_, ?_⟩
  · rw [broadeningAttempts, dedupFirst]
    rfl
  · have := hsub.length_le
    simpa [broadeningAttempts] using this
  · unfold vectorSearchChunks
    rw [if_neg hq]
    exact tryAttempts_eq_find _ _

/-- Witness for C5: with all three filters set and an index that only
answers the cik-only subset, the first two attempts are empty and the third
attempt's hit is returned; the deduplicated chain has the full four
attempts. -/
theorem vectorSearchChunks_broadening_witness :
    vectorSearchChunks exQsearch "q" exVecFilters =
      [{ score := 3 / 4, chunkId := "ck1", documentId := "dc1" }] ∧
    (dedupFirst (broadeningAttempts exVecFilters)).length ≤ 4 ∧
    (dedupFirst (broadeningAttempts exVecFilters)).Nodup := by
  have h := vectorSearchChunks_broadening exQsearch "q" exVecFilters (by decide)
    (dedupFirst (broadeningAttempts exVecFilters)) rfl
  refine ⟨?_, h.2.2.2.1, h.2.2.1⟩
  rw [h.2.2.2.2]
  rfl

/-! ## Sorting lemmas for the score / flow-sum orderings -/

theorem insertSortedBy_perm (le : α → α → Bool) (x : α) (l : List α) :
    List.Perm (insertSortedBy le x l) (x :: l) := by
  induction l with
  | nil => exact List.Perm.refl _
  | cons y ys ih =>
    rw [insertSortedBy]
    by_cases hxy : le x y = true
    · rw [if_pos hxy]
    · rw [if_neg hxy]
      exact (ih.cons y).trans (List.Perm.swap x y ys)

theorem insertionSortBy_perm (le : α → α → Bool) (l : List α) :
    List.Perm (insertionSortBy le l) l := by
  induction l with
  | nil => exact List.Perm.refl _
  | cons x xs ih =>
    rw [insertionSortBy]
    exact (insertSortedBy_perm le x _).trans (ih.cons x)

theorem mem_insertionSortBy (le : α → α → Bool) (l : List α) (a : α) :
    a ∈ insertionSortBy le l ↔ a ∈ l :=
  (insertionSortBy_perm le l).mem_iff

theorem length_insertionSortBy (le : α → α → Bool) (l : List α) :
    (insertionSortBy le l).length = l.length :=
  (insertionSortBy_perm le l).length_eq

theorem insertSortedBy_pairwise (le : α → α → Bool)
    (htrans : ∀ a b c, le a b = true → le b c = true → le a c = true)
    (htot : ∀ a b, le a b = true ∨ le b a = true)
    (x : α) (l : List α) (hl : l.Pairwise (fun a b => le a b = true)) :
    (insertSortedBy le x l).Pairwise (fun a b => le a b = true) := by
  induction l with
  | nil => simp [insertSortedBy]
  | cons y ys ih =>
    rw [insertSortedBy]
    rcases List.pairwise_cons.mp hl with ⟨hy, hys⟩
    by_cases hxy : le x y = true
    · rw [if_pos hxy]
      refine List.pairwise_cons.mpr ⟨?_, hl⟩
      intro z hz
      rcases List.mem_cons.mp hz with rfl | hz
      · exact hxy
      · exact htrans x y z hxy (hy z hz)
    · rw [if_neg hxy]
      refine List.pairwise_cons.mpr ⟨?_, ih hys⟩
      intro z hz
      have hz2 := (insertSortedBy_perm le x ys).mem_iff.mp hz
      rcases List.mem_cons.mp hz2 with hzx | hz2
      · rw [hzx]
        rcases htot x y with h | h
        · exact absurd h hxy
        · exact h
      · exact hy z hz2

theorem insertionSortBy_pairwise (le : α → α → Bool)
    (htrans : ∀ a b c, le a b = true → le b c = true → le a c = true)
    (htot : ∀ a b, le a b = true ∨ le b a = true) (l : List α) :
    (insertionSortBy le l).Pairwise (fun a b => le a b = true) := by
  induction l with
  | nil => simp [insertionSortBy]
  | cons x xs ih =>
    rw [insertionSortBy]
    exact insertSortedBy_pairwise le htrans htot x _ ih

/-! ## Broadening monotonicity (C6) -/

/-- Counterexample for C6 as stated: with the two-point index and `topK = 1`,
the hit for the cik-filtered search (the only matching point, score 1) is
not among the hits of the fully relaxed search, because relaxing the filter
admits a higher-scoring point that fills the single top-K slot.  The empty
filter set is a strict subset of the cik filter set. -/
theorem searchWith_broadening_counterexample :
    List.Sublist ([] : List FilterCond) [exCikCond] ∧
    ([] : List FilterCond) ≠ [exCikCond] ∧
    toHit exPointLow ∈ searchWith (fun must => qdrantSearch exIndex 1 must) [exCikCond] ∧
    toHit exPointLow ∉ searchWith (fun must => qdrantSearch exIndex 1 must) [] := by
  refine ⟨List.nil_sublist _, by decide, by decide, by decide⟩

/-- C6 (amended): the set of index points admitted by a filter set F is
contained in the set admitted by any F' ⊆ F, and consequently the hit list
returned for F is contained in the hit list returned for F' whenever the
relaxed search is not truncated by topK (at most topK points match F').
With the topK cap in place the inclusion can fail (see the counterexample):
a relaxed filter may push previously returned low-scoring hits out of the
top K. -/
theorem searchWith_broadening_monotone (pts : List VectorPoint) (topK : Nat)
    (F Fp : List FilterCond)
    (hsub : ∀ c ∈ Fp, c ∈ F)
    (hfit : (pts.filter (fun p => Fp.all (condHolds p.payload))).length ≤ topK) :
    (∀ p ∈ pts, F.all (condHolds p.payload) = true →
      Fp.all (condHolds p.payload) = true) ∧
    ∀ h ∈ searchWith (fun must => qdrantSearch pts topK must) F,
      h ∈ searchWith (fun must => qdrantSearch pts topK must) Fp := by
  have hmono : ∀ p : VectorPoint, F.all (condHolds p.payload) = true →
      Fp.all (condHolds p.payload) = true := by
    intro p hF
    rw [List.all_eq_true] at hF ⊢
    intro c hc
    exact hF c (hsub c hc)
  refine ⟨fun p _ => hmono p, ?_⟩
  intro h hh
  unfold searchWith at hh ⊢
  obtain ⟨p, hp, hph⟩ := List.mem_map.mp hh
  refine List.mem_map.mpr ⟨p, ?_, hph⟩
  dsimp only at hp ⊢
  unfold qdrantSearch at hp ⊢
  have hpF : p ∈ pts.filter (fun p => F.all (condHolds p.payload)) :=
    (mem_insertionSortBy _ _ p).mp (List.take_subset _ _ hp)
  have hpFp : p ∈ pts.filter (fun p => Fp.all (condHolds p.payload)) := by
    rw [List.mem_filter] at hpF ⊢
    exact ⟨hpF.1, hmono p hpF.2⟩
  have hlen : (insertionSortBy (fun a b => decide (b.score ≤ a.score))
      (pts.filter (fun p => Fp.all (condHolds p.payload)))).length ≤ topK := by
    rw [length_insertionSortBy]
    exact hfit
  rw [List.take_of_length_le hlen]
  exact (mem_insertionSortBy _ _ p).mpr hpFp

/-- Witness for the amended C6: with `topK = 2` (no truncation) the
cik-filtered hit remains among the hits of the fully relaxed search. -/
theorem searchWith_broadening_monotone_witness :
    toHit exPointLow ∈ searchWith (fun must => qdrantSearch exIndex 2 must) [exCikCond] ∧
    toHit exPointLow ∈ searchWith (fun must => qdrantSearch exIndex 2 must) [] := by
  have hmem : toHit exPointLow ∈
      searchWith (fun must => qdrantSearch exIndex 2 must) [exCikCond] := by decide
  exact ⟨hmem,
    (searchWith_broadening_monotone exIndex 2 [exCikCond] [] (by simp) (by decide)).2
      _ hmem⟩

/-! ## Graph-traversal lemmas (C7) -/

theorem dedupByKey_subset (key : α → String) (l : List α) :
    ∀ a ∈ dedupByKey key l, a ∈ l := by
  induction l with
  | nil => simp [dedupByKey]
  | cons x xs ih =>
    intro a ha
    rw [dedupByKey, List.mem_cons] at ha
    rcases ha with ha | ha
    · rw [ha]
      exact List.mem_cons_self _ _
    · exact List.mem_cons_of_mem _ (ih a (List.mem_of_mem_filter ha))

theorem dedupByKey_pairwise (key : α → String) (l : List α) :
    (dedupByKey key l).Pairwise (fun a b => key a ≠ key b) := by
  induction l with
  | nil => simp [dedupByKey]
  | cons x xs ih =>
    rw [dedupByKey]
    refine List.pairwise_cons.mpr ⟨?_, ih.filter _⟩
    intro b hb
    have := List.of_mem_filter hb
    simp at this
    exact fun h => this h.symm

theorem dedupByKey_cover (key : α → String) (l : List α) :
    ∀ a ∈ l, ∃ d ∈ dedupByKey key l, key d = key a := by
  induction l with
  | nil => simp
  | cons x xs ih =>
    intro a ha
    rcases List.mem_cons.mp ha with ha | ha
    · exact ⟨x, by rw [dedupByKey]; exact List.mem_cons_self _ _, by rw [ha]⟩
    · obtain ⟨d, hd, hkd⟩ := ih a ha
      by_cases hdx : key d = key x
      · exact ⟨x, by rw [dedupByKey]; exact List.mem_cons_self _ _,
          (hdx.symm.trans hkd).symm ▸ rfl⟩
      · refine ⟨d, ?_, hkd⟩
        rw [dedupByKey]
        exact List.mem_cons_of_mem _ (List.mem_filter.mpr ⟨hd, by simpa using hdx⟩)

theorem dedupByKey_mem_of_inj (key : α → String) (l : List α)
    (hinj : ∀ a ∈ l, ∀ b ∈ l, key a = key b → a = b) :
    ∀ a ∈ l, a ∈ dedupByKey key l := by
  intro a ha
  obtain ⟨d, hd, hkd⟩ := dedupByKey_cover key l a ha
  have : d = a := hinj d (dedupByKey_subset key l d hd) a ha hkd
  exact this ▸ hd

theorem sanitizeEdgeTypes_eq (o : Option (List String)) :
    sanitizeEdgeTypes o =
      (if (o.getD []).filter (fun t => ALLOWED_EDGE_TYPES.contains t) = []
       then ALLOWED_EDGE_TYPES
       else (o.getD []).filter (fun t => ALLOWED_EDGE_TYPES.contains t)) := by
  cases o with
  | none => simp [sanitizeEdgeTypes]
  | some ts =>
    by_cases h : ts = []
    · simp [sanitizeEdgeTypes, h]
    · simp only [sanitizeEdgeTypes, if_neg h, Option.getD_some]

theorem sanitizeEdgeTypes_subset (o : Option (List String)) :
    ∀ t ∈ sanitizeEdgeTypes o, t ∈ ALLOWED_EDGE_TYPES := by
  rw [sanitizeEdgeTypes_eq]
  split
  · intro t ht
    exact ht
  · intro t ht
    have := List.of_mem_filter ht
    simpa using this

/-- C7: graphTraverse queries the graph store with the first seed entity id,
a depth clamped into 1..3 and the sanitized edge-type list: unknown types
are dropped and an empty or entirely invalid caller list falls back to the
full allow-list, so the queried relationship types are always within
{BENEFITS_FROM, EXPOSED_TO, SUPPLIES_TO, IMPACTS}.  Returned edges carry
pairwise-distinct dedup keys (edgeType, assertionId, fromId, toId — encoded
as the key string), every returned edge arises from a returned path segment
whose relationship type the query allow-listed, every kept segment is
represented by exactly one edge with its key, and when the key encoding is
injective on the segment edges every distinct edge tuple is itself
returned. -/
theorem graphTraverse_spec (run : TraverseQuery → List (List PathSeg))
    (seedEntityIds : List String) (edgeTypes : Option (List String))
    (depth limit : Option Int) (seed : String) (q : TraverseQuery)
    (hseed : (seedEntityIds.head?).map jsTrim = some seed)
    (hseedne : seed ≠ "")
    (hq : q = traverseQueryOf edgeTypes depth limit seed)
    (hrun : ∀ path ∈ run q, ∀ s ∈ path, s.rel.relType ∈ q.relTypes) :
    (1 ≤ q.depth ∧ q.depth ≤ 3) ∧
    q.relTypes =
      (if (edgeTypes.getD []).filter (fun t => ALLOWED_EDGE_TYPES.contains t) = []
       then ALLOWED_EDGE_TYPES
       else (edgeTypes.getD []).filter (fun t => ALLOWED_EDGE_TYPES.contains t)) ∧
    (∀ t ∈ q.relTypes, t ∈ ALLOWED_EDGE_TYPES) ∧
    graphTraverse run seedEntityIds edgeTypes depth limit =
      { nodes := traverseNodes (run q), edges := traverseEdges (run q) } ∧
    (traverseEdges (run q)).Pairwise (fun a b => edgeKey a ≠ edgeKey b) ∧
    (∀ e ∈ traverseEdges (run q),
      e.edgeType ∈ ALLOWED_EDGE_TYPES ∧
      ∃ s ∈ validSegs (run q), e = segEdge s) ∧
    (∀ s ∈ validSegs (run q),
      ∃ e ∈ traverseEdges (run q), edgeKey e = edgeKey (segEdge s)) ∧
    ((∀ a ∈ (validSegs (run q)).map segEdge, ∀ b ∈ (validSegs (run q)).map segEdge,
        edgeKey a = edgeKey b → a = b) →
      ∀ s ∈ validSegs (run q), segEdge s ∈ traverseEdges (run q)) := by
  have hseg_type : ∀ s ∈ validSegs (run q), s.rel.relType ∈ q.relTypes := by
    intro s hs
    have hs2 : s ∈ (run q).flatten := List.mem_of_mem_filter hs
    obtain ⟨path, hpath, hsp⟩ := List.mem_flatten.mp hs2
    exact hrun path hpath s hsp
  subst hq
  refine ⟨?_, ?_, ?_, ?_, ?_, ?_, ?_, ?_⟩
  · unfold traverseQueryOf clampInt
    constructor
    · exact le_max_left _ _
    · simp
  · unfold traverseQueryOf
    exact sanitizeEdgeTypes_eq edgeTypes
  · unfold traverseQueryOf
    exact sanitizeEdgeTypes_subset edgeTypes
  · unfold graphTraverse
    rw [hseed]
    dsimp only
    rw [if_neg hseedne]
  · exact dedupByKey_pairwise edgeKey _
  · intro e he
    obtain ⟨s, hs, hse⟩ := List.mem_map.mp
      (dedupByKey_subset edgeKey _ e he)
    refine ⟨?_, s, hs, hse.symm⟩
    have := hseg_type s hs
    have htype : e.edgeType = s.rel.relType := by
      rw [← hse]
      rfl
    rw [htype]
    exact sanitizeEdgeTypes_subset edgeTypes _ this
  · intro s hs
    exact dedupByKey_cover edgeKey _ (segEdge s) (List.mem_map_of_mem _ hs)
  · intro hinj s hs
    exact dedupByKey_mem_of_inj edgeKey _ hinj (segEdge s) (List.mem_map_of_mem _ hs)

/-- Witness for C7: seed E1 with a caller list containing one unknown type
and depth 5; the query clamps depth to 3, drops the unknown type, and the
duplicated path segment collapses to a single edge. -/
theorem graphTraverse_spec_witness :
    (traverseQueryOf (some ["IMPACTS", "EXPOSED_TO", "BOGUS"]) (some 5) none "E1").depth = 3 ∧
    (traverseQueryOf (some ["IMPACTS", "EXPOSED_TO", "BOGUS"]) (some 5) none "E1").relTypes =
      ["IMPACTS", "EXPOSED_TO"] ∧
    (graphTraverse exRun ["E1"] (some ["IMPACTS", "EXPOSED_TO", "BOGUS"])
        (some 5) none).edges = [segEdge exSeg1, segEdge exSeg2] ∧
    edgeKey (segEdge exSeg1) ≠ edgeKey (segEdge exSeg2) := by
  have h := graphTraverse_spec exRun ["E1"] (some ["IMPACTS", "EXPOSED_TO", "BOGUS"])
    (some 5) none "E1"
    (traverseQueryOf (some ["IMPACTS", "EXPOSED_TO", "BOGUS"]) (some 5) none "E1")
    rfl (by decide) rfl (by decide)
  refine ⟨by decide, by decide, ?_, by decide⟩
  rw [h.2.2.2.1]
  decide

/-! ## Signal-screener lemmas (C8) -/

theorem flowDescLe_trans : ∀ a b c : ScreenSignalsRow,
    flowDescLe a b = true → flowDescLe b c = true → flowDescLe a c = true := by
  intro a b c h1 h2
  simp only [flowDescLe, decide_eq_true_eq] at h1 h2 ⊢
  exact h2.trans h1

theorem flowDescLe_total : ∀ a b : ScreenSignalsRow,
    flowDescLe a b = true ∨ flowDescLe b a = true := by
  intro a b
  simp only [flowDescLe, decide_eq_true_eq]
  exact le_total b.flowSum a.flowSum

theorem screenRowOf_cik (table : List SignalRow) (today : Int)
    (input : ScreenSignalsInput) (c : String) (r : ScreenSignalsRow)
    (h : screenRowOf table today input c = some r) : r.cik = c := by
  unfold screenRowOf at h
  rcases hL : maxByDate? (epsWindowOf table today input c) with _ | l <;>
    rcases hE : minByDate? (epsWindowOf table today input c) with _ | e <;>
      rw [hL, hE] at h <;> dsimp only at h
  · exact absurd h (by simp)
  · exact absurd h (by simp)
  · exact absurd h (by simp)
  · by_cases h1 : (flowWindowOf table today input c).isEmpty = true
    · rw [if_pos h1] at h
      exact absurd h (by simp)
    · rw [if_neg h1] at h
      by_cases h2 : epsMinDeltaOf input < l.value - e.value ∧
          flowMinSumOf input <
            ((flowWindowOf table today input c).map (fun x => x.value)).sum
      · rw [if_pos h2] at h
        rw [← Option.some.inj h]
      · rw [if_neg h2] at h
        exact absurd h (by simp)

theorem screenRowOf_some_iff (table : List SignalRow) (today : Int)
    (input : ScreenSignalsInput) (c : String) :
    (∃ r, screenRowOf table today input c = some r) ↔
      ∃ l, maxByDate? (epsWindowOf table today input c) = some l ∧
        ∃ e, minByDate? (epsWindowOf table today input c) = some e ∧
          flowWindowOf table today input c ≠ [] ∧
          epsMinDeltaOf input < l.value - e.value ∧
          flowMinSumOf input < flowSumOf table today input c := by
  unfold screenRowOf
  rcases hL : maxByDate? (epsWindowOf table today input c) with _ | l <;>
    rcases hE : minByDate? (epsWindowOf table today input c) with _ | e <;>
      dsimp only
  · simp
  · simp
  · simp
  · constructor
    · intro ⟨r, hr⟩
      by_cases h1 : (flowWindowOf table today input c).isEmpty = true
      · rw [if_pos h1] at hr
        exact absurd hr (by simp)
      · rw [if_neg h1] at hr
        by_cases h2 : epsMinDeltaOf input < l.value - e.value ∧
            flowMinSumOf input <
              ((flowWindowOf table today input c).map (fun x => x.value)).sum
        · refine ⟨l, rfl, e, rfl, ?_, h2.1, h2.2⟩
          simpa [List.isEmpty_iff] using h1
        · rw [if_neg h2] at hr
          exact absurd hr (by simp)
    · intro ⟨l2, hl2, e2, he2, hfw, hd, hs⟩
      obtain rfl : l2 = l := (Option.some.inj hl2).symm
      obtain rfl : e2 = e := (Option.some.inj he2).symm
      have h1 : (flowWindowOf table today input c).isEmpty = false := by
        simpa [List.isEmpty_iff] using hfw
      rw [if_neg (by simp [h1])]
      rw [if_pos ⟨hd, hs⟩]
      exact ⟨_, rfl⟩

theorem filterMap_screenRow_cik_nodup (table : List SignalRow) (today : Int)
    (input : ScreenSignalsInput) (l : List String) (hl : l.Nodup) :
    ((l.filterMap (screenRowOf table today input)).map (·.cik)).Nodup := by
  induction l with
  | nil => simp
  | cons c cs ih =>
    rcases List.nodup_cons.mp hl with ⟨hc, hcs⟩
    rw [List.filterMap_cons]
    cases hrc : screenRowOf table today input c with
    | none => exact ih hcs
    | some r =>
      rw [List.map_cons, List.nodup_cons]
      refine ⟨?_, ih hcs⟩
      intro hmem
      rw [screenRowOf_cik table today input c r hrc] at hmem
      obtain ⟨r2, hr2, hr2c⟩ := List.mem_map.mp hmem
      obtain ⟨c2, hc2, hc2r⟩ := List.mem_filterMap.mp hr2
      have hcc : r2.cik = c2 := screenRowOf_cik table today input c2 r2 hc2r
      rw [hcc] at hr2c
      exact hc (hr2c ▸ hc2)

theorem screenRows_map_cik_nodup (table : List SignalRow) (today : Int)
    (input : ScreenSignalsInput) :
    ((screenRows table today input).map (·.cik)).Nodup :=
  filterMap_screenRow_cik_nodup table today input _ (dedupFirst_nodup _)

/-- C8: screenSignals returns the qualifying subjects ordered by flow sum
descending and capped at the clamped limit.  A subject (CIK) appears in the
pre-cap row list iff it is in the signal universe, both windowed series are
non-empty, the delta between the latest and earliest EPS-series value in the
EPS lookback window strictly exceeds epsMinDelta, and the sum of the
flow-series values in the flow lookback window strictly exceeds flowMinSum;
no subject appears twice. -/
theorem screenSignals_ordering_spec (table : List SignalRow) (today : Int)
    (input : ScreenSignalsInput) (pre : List ScreenSignalsRow)
    (hpre : pre = insertionSortBy flowDescLe (screenRows table today input)) :
    screenSignals table today input = pre.take (screenLimitOf input).toNat ∧
    (screenSignals table today input).length ≤ (screenLimitOf input).toNat ∧
    pre.Pairwise (fun a b => b.flowSum ≤ a.flowSum) ∧
    (pre.map (·.cik)).Nodup ∧
    (∀ r ∈ pre, r.delta = r.latestValue - r.earliestValue) ∧
    ∀ c : String,
      (∃ r ∈ pre, r.cik = c) ↔
        (c ∈ screenUniverse table input ∧
          ∃ l, maxByDate? (epsWindowOf table today input c) = some l ∧
            ∃ e, minByDate? (epsWindowOf table today input c) = some e ∧
              flowWindowOf table today input c ≠ [] ∧
              epsMinDeltaOf input < l.value - e.value ∧
              flowMinSumOf input < flowSumOf table today input c) := by
  subst hpre
  have hperm := insertionSortBy_perm flowDescLe (screenRows table today input)
  refine ⟨rfl, ?_, ?_, ?_, ?_, ?_⟩
  · rw [screenSignals]
    exact (List.length_take_le _ _)
  · have := insertionSortBy_pairwise flowDescLe flowDescLe_trans flowDescLe_total
      (screenRows table today input)
    exact this.imp (by
      intro a b h
      simpa [flowDescLe, decide_eq_true_eq] using h)
  · rw [List.Perm.nodup_iff (hperm.map (·.cik))]
    exact screenRows_map_cik_nodup table today input
  · intro r hr
    have hr2 : r ∈ screenRows table today input := hperm.mem_iff.mp hr
    obtain ⟨c, _, hcr⟩ := List.mem_filterMap.mp hr2
    unfold screenRowOf at hcr
    rcases hL : maxByDate? (epsWindowOf table today input c) with _ | l <;>
      rcases hE : minByDate? (epsWindowOf table today input c) with _ | e <;>
        rw [hL, hE] at hcr <;> dsimp only at hcr
    · exact absurd hcr (by simp)
    · exact absurd hcr (by simp)
    · exact absurd hcr (by simp)
    · by_cases h1 : (flowWindowOf table today input c).isEmpty = true
      · rw [if_pos h1] at hcr
        exact absurd hcr (by simp)
      · rw [if_neg h1] at hcr
        by_cases h2 : epsMinDeltaOf input < l.value - e.value ∧
            flowMinSumOf input <
              ((flowWindowOf table today input c).map (fun x => x.value)).sum
        · rw [if_pos h2] at hcr
          rw [← Option.some.inj hcr]
        · rw [if_neg h2] at hcr
          exact absurd hcr (by simp)
  · intro c
    constructor
    · intro ⟨r, hr, hrc⟩
      have hr2 : r ∈ screenRows table today input := hperm.mem_iff.mp hr
      obtain ⟨c2, hc2, hcr⟩ := List.mem_filterMap.mp hr2
      have : c2 = c := by
        rw [← hrc]
        exact (screenRowOf_cik table today input c2 r hcr).symm
      subst this
      exact ⟨hc2, (screenRowOf_some_iff table today input c2).mp ⟨r, hcr⟩⟩
    · intro ⟨hic, hcond⟩
      obtain ⟨r, hr⟩ := (screenRowOf_some_iff table today input c).mpr hcond
      refine ⟨r, hperm.mem_iff.mpr (List.mem_filterMap.mpr ⟨c, hic, hr⟩),
        screenRowOf_cik table today input c r hr⟩

/-- Witness for C8: the spec scenario — EPS series (day 1, 1.0), (day 5,
1.5) and a flow series summing to +200 inside the windows, both thresholds
zero — includes subject CIK 1 with delta 0.5. -/
theorem screenSignals_ordering_spec_witness :
    insertionSortBy flowDescLe (screenRows exSignalTable 10 exScreenInput) ≠ [] ∧
    (screenSignals exSignalTable 10 exScreenInput).length ≤ 50 := by
  have h := screenSignals_ordering_spec exSignalTable 10 exScreenInput
    (insertionSortBy flowDescLe (screenRows exSignalTable 10 exScreenInput)) rfl
  have hmem := (h.2.2.2.2.2 "1").mpr ⟨by decide, ?hcond⟩
  case hcond =>
    refine ⟨{ cik := "1", signalKey := "eps_ntm_consensus", asOfDate := 5,
              value := 3 / 2 }, rfl,
            { cik := "1", signalKey := "eps_ntm_consensus", asOfDate := 1,
              value := 1 }, rfl, by decide, ?_, ?_⟩
    · show (0 : ℚ) < 3 / 2 - 1
      norm_num
    · show (0 : ℚ) < List.sum [(200 : ℚ)]
      norm_num [List.sum]
  obtain ⟨r, hr, _⟩ := hmem
  exact ⟨List.ne_nil_of_mem hr, h.2.1⟩

/-! ## Extraction-normalization lemmas (C9) -/

theorem normalizePredicate_vocab (raw p : String)
    (h : normalizePredicate raw = some p) : p ∈ ALLOWED_EDGE_TYPES := by
  unfold normalizePredicate at h
  dsimp only at h
  split_ifs at h with h0 h1 h2 h3 h4 h5
  all_goals
    obtain rfl := Option.some.inj h
    first
      | simpa using h1
      | simp [ALLOWED_EDGE_TYPES]

theorem relationRow_some_inv (resolve : String → Option String)
    (docId chunkId freshId : String) (rel : ExtractedRelation)
    (r : ExtractedAssertionRow)
    (h : relationRow resolve docId chunkId freshId rel = some r) :
    r.predicate ∈ ALLOWED_EDGE_TYPES ∧ r.subjectEntityId ≠ r.objectEntityId := by
  unfold relationRow at h
  rcases hs : resolve (entityKey rel.subject) with _ | s <;>
    rcases ho : resolve (entityKey rel.object) with _ | o <;>
      rw [hs, ho] at h <;> dsimp only at h
  · exact absurd h (by simp)
  · exact absurd h (by simp)
  · exact absurd h (by simp)
  · by_cases hso : s = o
    · rw [if_pos hso] at h
      exact absurd h (by simp)
    · rw [if_neg hso] at h
      rcases hp : normalizePredicate rel.predicate with _ | p
      · rw [hp] at h
        exact absurd h (by simp)
      · rw [hp] at h
        dsimp only at h
        obtain rfl := Option.some.inj h
        exact ⟨normalizePredicate_vocab rel.predicate p hp, hso⟩

/-- C9: extractor output is not trusted — a relation whose predicate does
not normalize into the fixed vocabulary yields no assertion row; a relation
whose subject and object resolve to the same entity yields no row; every
built row's predicate is in the vocabulary with distinct subject/object and
comes from one of the chunk's relations; and an entity-type token the
synonym table does not recognize normalizes to the fallback "concept" (the
normalizer always lands in the entity-type enum). -/
theorem extraction_untrusted_normalization :
    (∀ raw p, normalizePredicate raw = some p → p ∈ ALLOWED_EDGE_TYPES) ∧
    (∀ (resolve : String → Option String) (docId chunkId freshId : String)
        (rel : ExtractedRelation),
      normalizePredicate rel.predicate = none →
      relationRow resolve docId chunkId freshId rel = none) ∧
    (∀ (resolve : String → Option String) (docId chunkId freshId : String)
        (rel : ExtractedRelation) (s : String),
      resolve (entityKey rel.subject) = some s →
      resolve (entityKey rel.object) = some s →
      relationRow resolve docId chunkId freshId rel = none) ∧
    (∀ (resolve : String → Option String) (docId chunkId : String)
        (freshIds : Nat → String) (rels : List ExtractedRelation) (i : Nat),
      ∀ r ∈ buildAssertionRows resolve docId chunkId freshIds rels i,
        r.predicate ∈ ALLOWED_EDGE_TYPES ∧
        r.subjectEntityId ≠ r.objectEntityId ∧
        ∃ rel ∈ rels, ∃ j,
          relationRow resolve docId chunkId (freshIds j) rel = some r) ∧
    (∀ raw, entityTypeToken raw ∉ recognizedTypeTokens →
      normalizeEntityType raw = "concept") ∧
    (∀ raw, normalizeEntityType raw ∈ ENTITY_TYPES) := by
  refine ⟨normalizePredicate_vocab, ?_, ?_, ?_, ?_, ?_⟩
  · intro resolve docId chunkId freshId rel hnorm
    unfold relationRow
    rcases hs : resolve (entityKey rel.subject) with _ | s <;>
      rcases ho : resolve (entityKey rel.object) with _ | o <;> dsimp only
    by_cases hso : s = o
    · rw [if_pos hso]
    · rw [if_neg hso, hnorm]
  · intro resolve docId chunkId freshId rel s hs ho
    unfold relationRow
    rw [hs, ho]
    dsimp only
    rw [if_pos rfl]
  · intro resolve docId chunkId freshIds rels
    induction rels with
    | nil =>
      intro i r hr
      rw [buildAssertionRows] at hr
      exact absurd hr (by simp)
    | cons rel rest ih =>
      intro i r hr
      rw [buildAssertionRows] at hr
      cases hrow : relationRow resolve docId chunkId (freshIds i) rel with
      | none =>
        rw [hrow] at hr
        obtain ⟨hvocab, hneq, rel2, hrel2, j, hj⟩ := ih (i + 1) r hr
        exact ⟨hvocab, hneq, rel2, List.mem_cons_of_mem _ hrel2, j, hj⟩
      | some row =>
        rw [hrow] at hr
        rcases List.mem_cons.mp hr with hr | hr
        · obtain ⟨hvocab, hneq⟩ := relationRow_some_inv resolve docId chunkId
            (freshIds i) rel row hrow
          rw [hr]
          exact ⟨hvocab, hneq, rel, List.mem_cons_self _ _, i, hr ▸ hrow⟩
        · obtain ⟨hvocab, hneq, rel2, hrel2, j, hj⟩ := ih (i + 1) r hr
          exact ⟨hvocab, hneq, rel2, List.mem_cons_of_mem _ hrel2, j, hj⟩
  · intro raw h
    have hcontains : ∀ (l : List String), (∀ x ∈ l, x ∈ recognizedTypeTokens) →
        l.contains (entityTypeToken raw) = false := by
      intro l hl
      by_contra hc
      rw [Bool.not_eq_false] at hc
      have : entityTypeToken raw ∈ l := by simpa using hc
      exact h (hl _ this)
    simp only [normalizeEntityType,
      hcontains ENTITY_TYPES (by decide),
      hcontains ["org", "organization", "corp", "corporation", "issuer", "entity"]
        (by decide),
      hcontains ["stock", "security", "bond", "equity", "etf", "index"] (by decide),
      hcontains ["industry", "vertical"] (by decide),
      hcontains ["nation", "region", "geography"] (by decide),
      hcontains ["metric", "kpi", "financial_metric"] (by decide)]
    simp
  · intro raw
    unfold normalizeEntityType
    dsimp only
    split_ifs with h1 h2 h3 h4 h5 h6
    · simpa using h1
    · simp [ENTITY_TYPES]
    · simp [ENTITY_TYPES]
    · simp [ENTITY_TYPES]
    · simp [ENTITY_TYPES]
    · simp [ENTITY_TYPES]
    · simp [ENTITY_TYPES]

/-- Witness for C9: of the three fixture relations, the synonymous predicate
"benefits from" is normalized and stored, the unknown predicate IS_COOL is
dropped, and the self-referential Apple-IMPACTS-Apple relation is dropped;
"Organization" normalizes to company and an unknown type falls back to
concept. -/
theorem extraction_untrusted_normalization_witness :
    buildAssertionRows exResolve "d1" "ch1" (fun _ => "fresh") exRelations 0 =
      [{ id := "fresh", subjectEntityId := "e-apple", predicate := "BENEFITS_FROM",
         objectEntityId := "e-ai", confidence := 4 / 5, sourceDocumentId := "d1",
         sourceChunkId := "ch1" }] ∧
    relationRow exResolve "d1" "ch1" "fresh"
      { subject := "Apple", predicate := "IS_COOL", object := "AI demand",
        confidence := 4 / 5 } = none ∧
    relationRow exResolve "d1" "ch1" "fresh"
      { subject := "Apple", predicate := "IMPACTS", object := "Apple",
        confidence := 4 / 5 } = none ∧
    normalizeEntityType "Organization" = "company" ∧
    normalizeEntityType "weird-type" = "concept" := by
  refine ⟨rfl, ?_, ?_, by decide, ?_⟩
  · exact extraction_untrusted_normalization.2.1 exResolve "d1" "ch1" "fresh"
      { subject := "Apple", predicate := "IS_COOL", object := "AI demand",
        confidence := 4 / 5 } (by decide)
  · exact extraction_untrusted_normalization.2.2.1 exResolve "d1" "ch1" "fresh"
      { subject := "Apple", predicate := "IMPACTS", object := "Apple",
        confidence := 4 / 5 } "e-apple" (by decide) (by decide)
  · exact extraction_untrusted_normalization.2.2.2.2.1 "weird-type" (by decide)

end FinanceAgent
